import Mathlib

set_option maxHeartbeats 1000000
set_option linter.unusedVariables false
set_option allowUnsafeReducibility true
attribute [semireducible] Rat.mul Rat.add Rat.sub Rat.inv Rat.ofScientific

/-!
Verification development for the edlib-based indel-calling core
(`bam2bcf_edlib.c`): candidate-allele discovery, per-sample consensus
construction, realignment score combination, quality calibration and the
orchestrating entry point.  C `int` values are modelled as `Int` (with the
2^32 wrap made explicit at the one place unsigned arithmetic is used), C
`double` arithmetic is modelled exactly over `ℚ` with decimal literals read
as the decimal rationals they denote, and `double`-to-`int` conversions are
modelled as truncation toward zero.
-/

/-- C double-to-int conversion: truncation toward zero. -/
def cint (q : ℚ) : Int := if q < 0 then -(Int.floor (-q)) else Int.floor q

/-- Exact rational division `a / b`, written through `Rat.divInt` so that
concrete values reduce inside the kernel (`a / 0 = 0`, as for `Rat.div`). -/
def qdiv (a b : ℚ) : ℚ := Rat.divInt (a.num * (b.den : Int)) ((a.den : Int) * b.num)

theorem qdiv_eq (a b : ℚ) : qdiv a b = a / b := by
  unfold qdiv
  rcases eq_or_ne b 0 with rfl | hb
  · simp
  · have had : ((a.den : ℚ)) ≠ 0 := Nat.cast_ne_zero.mpr a.den_nz
    have hbd : ((b.den : ℚ)) ≠ 0 := Nat.cast_ne_zero.mpr b.den_nz
    have hbn : ((b.num : Int) : ℚ) ≠ 0 :=
      Int.cast_ne_zero.mpr (Rat.num_ne_zero.mpr hb)
    rw [Rat.divInt_eq_div]
    push_cast
    rw [div_eq_div_iff (mul_ne_zero had hbn) hb]
    have hA : (a.num : ℚ) = a * (a.den : ℚ) :=
      (div_eq_iff had).mp (Rat.num_div_den a)
    have hB : (b.num : ℚ) = b * (b.den : ℚ) :=
      (div_eq_iff hbd).mp (Rat.num_div_den b)
    rw [hA, hB]
    ring

/-- `uint32_t` reduction: value modulo 2^32. -/
def u32 (x : Int) : Nat := (x % 4294967296).toNat

/-- `(int32_t)` reinterpretation of a `uint32_t` value. -/
def toInt32 (v : Nat) : Int :=
  if v < 2147483648 then (v : Int) else (v : Int) - 4294967296

/-- 32-bit wrap of an `int` expression (two's complement). -/
def i32 (x : Int) : Int := toInt32 (u32 x)

/-- `#define MINUS_CONST 0x10000000` -/
def MINUS_CONST : Nat := 0x10000000

/-- `#define MAX_TYPES 64` -/
def MAX_TYPES : Nat := 64

/-- `INT_MAX` on the 32-bit `int` used throughout the source. -/
def INT_MAX : Int := 2147483647

/-!  ## Packed per-read annotation (bcf_cgp_compute_indelQ, line 1356)

The source stores `p->aux = (sc[0]&0x3f)<<16 | seqQ<<8 | indelQ` and decodes
with `(aux>>16)&0x3f`, `(aux>>8)&0xff`, `aux&0xff` (see the notes block above
`bcf_edlib_gap_prep`).  The annotation values are non-negative, so the bit
layout is modelled on `Nat`. -/

/-- Pack an allele-call index, SeqQ and IndelQ into the 22-bit annotation:
`(sc[0]&0x3f)<<16 | seqQ<<8 | indelQ`. -/
def bcf_aux_pack (call seqQ indelQ : Nat) : Nat :=
  (call <<< 16) ||| (seqQ <<< 8) ||| indelQ

/-- Decode the call index: `(aux>>16)&0x3f`. -/
def bcf_aux_call (aux : Nat) : Nat := (aux >>> 16) &&& 0x3f

/-- Decode the sequence quality: `(aux>>8)&0xff`. -/
def bcf_aux_seqQ (aux : Nat) : Nat := (aux >>> 8) &&& 0xff

/-- Decode the indel quality: `aux&0xff`. -/
def bcf_aux_indelQ (aux : Nat) : Nat := aux &&& 0xff

theorem bcf_aux_pack_eq_add {call seqQ indelQ : Nat}
    (hq : seqQ ≤ 255) (hi : indelQ ≤ 255) :
    bcf_aux_pack call seqQ indelQ = call * 65536 + seqQ * 256 + indelQ := by
  unfold bcf_aux_pack
  have h1 : seqQ <<< 8 = seqQ * 256 := by
    rw [Nat.shiftLeft_eq]
  have h2 : call <<< 16 = call * 65536 := by
    rw [Nat.shiftLeft_eq]
  rw [h1, h2]
  have e1 : call * 65536 ||| seqQ * 256 = call * 65536 + seqQ * 256 := by
    have := Nat.mul_add_lt_is_or (i := 16) (b := seqQ * 256) (by omega) call
    rw [Nat.mul_comm 65536 call] at this
    omega
  rw [e1]
  have h : call * 65536 + seqQ * 256 = 2 ^ 8 * (call * 256 + seqQ) := by ring
  rw [h]
  have := Nat.mul_add_lt_is_or (i := 8) (b := indelQ) (by omega)
    (call * 256 + seqQ)
  omega

/-- C5.  For every allele index in [0,4] and SeqQ, IndelQ in [0,255], decoding
the packed 22-bit annotation `(a<<16)|(seqQ<<8)|indelQ` with `(code>>16)&0x3f`,
`(code>>8)&0xff` and `code&0xff` recovers exactly the original triple. -/
theorem aux_pack_roundtrip (call seqQ indelQ : Nat)
    (hc : call ≤ 4) (hq : seqQ ≤ 255) (hi : indelQ ≤ 255) :
    bcf_aux_call (bcf_aux_pack call seqQ indelQ) = call ∧
    bcf_aux_seqQ (bcf_aux_pack call seqQ indelQ) = seqQ ∧
    bcf_aux_indelQ (bcf_aux_pack call seqQ indelQ) = indelQ := by
  rw [bcf_aux_pack_eq_add hq hi]
  unfold bcf_aux_call bcf_aux_seqQ bcf_aux_indelQ
  have m6 : ∀ x : Nat, x &&& 0x3f = x % 64 :=
    fun x => Nat.and_pow_two_sub_one_eq_mod x 6
  have m8 : ∀ x : Nat, x &&& 0xff = x % 256 :=
    fun x => Nat.and_pow_two_sub_one_eq_mod x 8
  rw [Nat.shiftRight_eq_div_pow, Nat.shiftRight_eq_div_pow, m6, m8, m8]
  refine ⟨?_, ?_, ?_⟩ <;> · show _ = _; omega

/-- Witness for C5 at a concrete triple. -/
theorem aux_pack_roundtrip_witness :
    bcf_aux_call (bcf_aux_pack 3 200 17) = 3 ∧
    bcf_aux_seqQ (bcf_aux_pack 3 200 17) = 200 ∧
    bcf_aux_indelQ (bcf_aux_pack 3 200 17) = 17 :=
  aux_pack_roundtrip 3 200 17 (by decide) (by decide) (by decide)

/-! ## bcf_callaux_t

Only the fields of the (externally declared) `bcf_callaux_t` that
`bam2bcf_edlib.c` reads or writes are modelled.  `indel_types`, `maxins` and
`inscns` are the CalibrationContext output fields the spec calls the chosen
indel types and the insertion consensus. -/

/-- The slice of `bcf_callaux_t` used by this translation unit. -/
structure BcfCallaux where
  openQ : Int
  extQ : Int
  tandemQ : Int
  min_support : Int
  min_frac : ℚ
  per_sample_flt : Bool
  indel_win_size : Nat
  poly_mqual : Bool
  indel_bias : ℚ
  del_bias : ℚ
  nqual : Nat
  max_support : Int
  max_frac : ℚ
  indel_types : List Int
  maxins : Nat
  inscns : List Int
deriving Repr, DecidableEq

/-- `est_seqQ` (lines 70-108): sequence-quality estimate for an indel of
relative size `l` given a reference homopolymer run of length `l_run`.
`q = bca->openQ + bca->extQ*(abs(l)-1)`;
`qh = (int)(bca->tandemQ*(double)abs(l)/l_run + .499)`; the result is
`q < qh ? q : qh`.  The `str_len` parameter exists in the source's signature
but its body never reads it. -/
def est_seqQ (bca : BcfCallaux) (l : Int) (l_run : Int) (str_len : Int) : Int :=
  let q := bca.openQ + bca.extQ * (|l| - 1)
  let qh := cint (Rat.divInt (bca.tandemQ * |l|) l_run + Rat.divInt 499 1000)
  if q < qh then q else qh

theorem est_seqQ_eq_min (bca : BcfCallaux) (l l_run s : Int) :
    est_seqQ bca l l_run s =
      min (bca.openQ + bca.extQ * (|l| - 1))
        (cint (Rat.divInt (bca.tandemQ * |l|) l_run + Rat.divInt 499 1000)) := by
  unfold est_seqQ
  dsimp only
  split <;> omega

theorem cint_mono_of_nonneg {a b : ℚ} (ha : 0 ≤ a) (h : a ≤ b) :
    cint a ≤ cint b := by
  unfold cint
  rw [if_neg (by linarith), if_neg (by linarith)]
  exact Int.floor_le_floor h

/-- C10.  `est_seqQ` does not depend on its `str_len` argument: two calls that
differ only in `str_len` return the same value, so the repeat-length statistic
the scorer threads into the calibrator has no effect on SeqQ. -/
theorem est_seqQ_ignores_str_len (bca : BcfCallaux) (l l_run s1 s2 : Int) :
    est_seqQ bca l l_run s1 = est_seqQ bca l l_run s2 := rfl

/-- C6.  Holding the penalty constants fixed and non-negative, `est_seqQ` is
non-increasing in the run length (for run length ≥ 1) at every fixed size, and
non-decreasing in the absolute size at every fixed run length. -/
theorem est_seqQ_monotone (bca : BcfCallaux)
    (hopen : 0 ≤ bca.openQ) (hext : 0 ≤ bca.extQ) (htan : 0 ≤ bca.tandemQ) :
    (∀ (l r1 r2 s : Int), 1 ≤ r1 → r1 ≤ r2 →
        est_seqQ bca l r2 s ≤ est_seqQ bca l r1 s) ∧
    (∀ (l1 l2 r s : Int), 1 ≤ r → |l1| ≤ |l2| →
        est_seqQ bca l1 r s ≤ est_seqQ bca l2 r s) := by
  have habs : ∀ l : Int, (0 : ℚ) ≤ (|l| : ℚ) := by
    intro l
    exact_mod_cast abs_nonneg l
  have htanQ : (0 : ℚ) ≤ (bca.tandemQ : ℚ) := by exact_mod_cast htan
  have hnum : ∀ l : Int, (0 : ℚ) ≤ ((bca.tandemQ * |l| : Int) : ℚ) := by
    intro l
    push_cast
    exact mul_nonneg htanQ (habs l)
  constructor
  · intro l r1 r2 s h1 h12
    rw [est_seqQ_eq_min, est_seqQ_eq_min]
    refine min_le_min le_rfl (cint_mono_of_nonneg ?_ ?_)
    · have h2 : (0 : ℚ) < (r2 : ℚ) := by
        exact_mod_cast (by omega : (0:Int) < r2)
      simp only [Rat.divInt_eq_div]
      have := div_nonneg (hnum l) (le_of_lt h2)
      have c499 : (0:ℚ) ≤ (499 : ℚ) / 1000 := by norm_num
      push_cast at this ⊢
      linarith
    · have h1Q : (0 : ℚ) < (r1 : ℚ) := by
        exact_mod_cast (by omega : (0:Int) < r1)
      have h12Q : (r1 : ℚ) ≤ (r2 : ℚ) := by exact_mod_cast h12
      simp only [Rat.divInt_eq_div]
      have := div_le_div_of_nonneg_left (hnum l) h1Q h12Q
      linarith
  · intro l1 l2 r s hr habs12
    rw [est_seqQ_eq_min, est_seqQ_eq_min]
    have habs12Q : (|l1| : ℚ) ≤ (|l2| : ℚ) := by exact_mod_cast habs12
    have hrQ : (0 : ℚ) < (r : ℚ) := by
      exact_mod_cast (by omega : (0:Int) < r)
    refine min_le_min (by nlinarith) (cint_mono_of_nonneg ?_ ?_)
    · simp only [Rat.divInt_eq_div]
      have := div_nonneg (hnum l1) (le_of_lt hrQ)
      have c499 : (0:ℚ) ≤ (499 : ℚ) / 1000 := by norm_num
      linarith
    · simp only [Rat.divInt_eq_div]
      have hm : ((bca.tandemQ * |l1| : Int) : ℚ) ≤ ((bca.tandemQ * |l2| : Int) : ℚ) := by
        push_cast
        exact mul_le_mul_of_nonneg_left habs12Q htanQ
      gcongr

/-! ## Pileup reads -/

/-- The per-read data this core consumes: a `bam_pileup1_t` together with the
fields of its `bam1_t` record that the source reads.  `seq` holds the 4-bit
nt16 base codes returned by `bam_seqi`; `cigar` holds (op, len) pairs;
`aux` is the mutable 22-bit annotation the core writes. -/
structure PRead where
  pos : Int
  cigar : List (Nat × Nat)
  seq : List Nat
  qual : List Nat
  qpos : Nat
  indel : Int
  is_del : Bool
  unmapped : Bool
  aux : Int
deriving Repr, DecidableEq

/-- BAM cigar operation codes (htslib). -/
def BAM_CMATCH : Nat := 0
def BAM_CINS : Nat := 1
def BAM_CDEL : Nat := 2
def BAM_CREF_SKIP : Nat := 3
def BAM_CSOFT_CLIP : Nat := 4
def BAM_CEQUAL : Nat := 7
def BAM_CDIFF : Nat := 8

/-- htslib's `bam_cigar2qlen`: total length of the query-consuming cigar
operations (M, I, S, =, X). -/
def bam_cigar2qlen (cigar : List (Nat × Nat)) : Nat :=
  (cigar.map (fun c =>
    if c.1 = BAM_CMATCH ∨ c.1 = BAM_CINS ∨ c.1 = BAM_CSOFT_CLIP ∨
       c.1 = BAM_CEQUAL ∨ c.1 = BAM_CDIFF then c.2 else 0)).sum

/-- htslib's `seq_nt16_int[]`: 4-bit nt16 code to a 0-4 base index
(A, C, G, T, other). -/
def seq_nt16_int (b : Nat) : Nat :=
  if b = 1 then 0 else if b = 2 then 1 else if b = 4 then 2
  else if b = 8 then 3 else 4

/-- Modelled from the spec: `B2B_INDEL_NULL`, the null sentinel held in unused
chosen-indel-type slots of the CalibrationContext (declared in the external
header `bam2bcf.h`; the spec only requires it to be a distinguished marker). -/
def B2B_INDEL_NULL : Int := -10000

/-! ## Allele Type Discovery: bcf_cgp_find_types (lines 118-244) -/

/-- All reads of the pileup, in sample order. -/
def allReads (plp : List (List PRead)) : List PRead := plp.flatten

/-- The unsorted `aux[]` array contents: `MINUS_CONST` (the always-present
reference type) followed by `(uint32_t)(MINUS_CONST + p->indel)` for every
read with a non-zero indel (lines 136-149). -/
def ftAuxList (plp : List (List PRead)) : List Nat :=
  (MINUS_CONST : Nat) ::
    ((allReads plp).filter (fun p => p.indel != 0)).map
      (fun p => u32 ((MINUS_CONST : Int) + p.indel))

/-- Decode an `aux` entry back to a signed indel size:
`(int32_t)(aux[i] - MINUS_CONST)` (line 212). -/
def ftSz (v : Nat) : Int := toInt32 (u32 ((v : Int) - (MINUS_CONST : Int)))

/-- Per-sample support scan (lines 141-164): accumulates
(indel_support_ok, max_support, max_frac, n_alt, n_tot).  A 0/0 fraction is
NaN in C and compares false; the `nt != 0` guards encode exactly that. -/
def ftSampleStep (bca : BcfCallaux) (st : Bool × Int × ℚ × Nat × Nat)
    (s : List PRead) : Bool × Int × ℚ × Nat × Nat :=
  match st with
  | (ok, ms, mf, nalt, ntot) =>
    let na := (s.filter (fun p => p.indel != 0)).length
    let nt := s.length
    let ok' := ok ||
      (decide ((na : Int) ≥ bca.min_support) &&
       (nt != 0 && decide (Rat.divInt na nt ≥ bca.min_frac)))
    let upd := decide ((na : Int) > ms) &&
      (nt != 0 && decide (Rat.divInt na nt > 0))
    let ms' : Int := if upd then (na : Int) else ms
    let mf' : ℚ := if upd then Rat.divInt na nt else mf
    (ok', ms', mf', nalt + na, ntot + nt)

/-- Fold of `ftSampleStep` over the samples, from the zeroed accumulator. -/
def ftSampleScan (bca : BcfCallaux) (plp : List (List PRead)) :
    Bool × Int × ℚ × Nat × Nat :=
  plp.foldl (ftSampleStep bca) (false, 0, 0, 0, 0)

/-- The reference-window N scan (lines 194-197):
`for (i = pos; i < i_end && ref[i]; i++) nN += ref[i] == 'N';`
returns `(nN, i)` at loop exit; `fuel` is `i_end - i`.  Reading the reference
past the end of the modelled window yields the terminating NUL. -/
def ftScanN (ref : List Char) : Nat → Nat → Nat × Nat
  | 0, i => (0, i)
  | fuel+1, i =>
    if ref.getD i (Char.ofNat 0) = Char.ofNat 0 then (0, i)
    else
      let r := ftScanN ref fuel (i + 1)
      ((if ref.getD i (Char.ofNat 0) = 'N' then 1 else 0) + r.1, r.2)

/-- The final filter pass over the sorted, deduplicated sizes
(lines 210-225): a distinct value is kept if it decodes to size 0, or if its
multiplicity `j-i` meets `min_support` and (in aggregate mode) the
`(j-i)/n_tot` fraction meets `min_frac`. -/
def ftTypes (bca : BcfCallaux) (auxSorted : List Nat) (n_tot : Nat) :
    List Int :=
  (auxSorted.dedup.filter (fun v =>
      decide (ftSz v = 0) ||
      (decide ((auxSorted.count v : Int) ≥ bca.min_support) &&
       (bca.per_sample_flt ||
        (n_tot != 0 &&
         decide (Rat.divInt (auxSorted.count v) n_tot ≥ bca.min_frac)))))).map
    ftSz

/-- The maximum `bam_cigar2qlen` over all reads (lines 151-153). -/
def ftMaxRdLen (plp : List (List PRead)) : Nat :=
  (allReads plp).foldl (fun m p => max m (bam_cigar2qlen p.cigar)) 0

/-- The rejection/result decision of `bcf_cgp_find_types` (lines 166-243):
the `n_types == 1 || !indel_support_ok` skip, the `MAX_TYPES` cap, the
reference-N window guard, the support filter, the `t <= 1` skip, and finally
the reference-type search `types[t] == 0`. -/
def ftResult (plp : List (List PRead)) (pos : Nat) (bca : BcfCallaux)
    (ref : List Char) : Option (List Int × Nat × Nat × Nat) :=
  let scan := ftSampleScan bca plp
  let n_alt := scan.2.2.2.1
  let n_tot := scan.2.2.2.2
  let auxSorted := List.insertionSort (· ≤ ·) (ftAuxList plp)
  let n_types := auxSorted.dedup.length
  let ok :=
    if bca.per_sample_flt then scan.1
    else !((n_tot != 0 && decide (Rat.divInt n_alt n_tot < bca.min_frac)) ||
           decide ((n_alt : Int) < bca.min_support))
  if n_types = 1 ∨ ok = false then none
  else if n_types ≥ MAX_TYPES then none
  else
    let iEnd := pos + min (2 * bca.indel_win_size) (ftMaxRdLen plp)
    let scanned := ftScanN ref (iEnd - pos) pos
    if scanned.1 * 2 > scanned.2 - pos then none
    else
      let types := ftTypes bca auxSorted n_tot
      if types.length ≤ 1 then none
      else
        some (types, types.findIdx (fun x => x == 0), ftMaxRdLen plp,
          (allReads plp).length)

/-- `bcf_cgp_find_types` (lines 118-244): scans the pileup for the distinct
indel sizes, applies the support filters and the reference-N guard, and
returns the updated `bca` (`max_support`/`max_frac` are written
unconditionally, lines 131 and 159-160) together with either `none` (site
rejected) or `(types, ref_type, max_rd_len, N)`.  `ks_introsort` is an
ascending sort of `uint32_t` values, modelled by insertion sort; allocation
failure is not modelled. -/
def bcf_cgp_find_types (plp : List (List PRead)) (pos : Nat)
    (bca : BcfCallaux) (ref : List Char) :
    BcfCallaux × Option (List Int × Nat × Nat × Nat) :=
  let scan := ftSampleScan bca plp
  ({ bca with max_support := scan.2.1, max_frac := scan.2.2.1 },
    ftResult plp pos bca ref)

/-! ## Claim C1: invariants of the candidate type list -/

theorem ftSz_eq (v : Nat) (hv : v < 2 ^ 29) : ftSz v = (v : Int) - 2 ^ 28 := by
  unfold ftSz u32 toInt32 MINUS_CONST
  split <;> omega

/-- Every `aux[]` value is below 2^29 when every read's indel is a sane
CIGAR-derived size (BAM stores operation lengths in 28 bits, so
`|p->indel| < 2^28` at every call site). -/
theorem ftAuxList_bound (plp : List (List PRead))
    (hb : ∀ s ∈ plp, ∀ p ∈ s, -(2 ^ 28 : Int) ≤ p.indel ∧ p.indel < 2 ^ 28) :
    ∀ v ∈ ftAuxList plp, v < 2 ^ 29 := by
  intro v hv
  unfold ftAuxList at hv
  rcases List.mem_cons.mp hv with h | h
  · subst h
    norm_num [MINUS_CONST]
  · rcases List.mem_map.mp h with ⟨p, hp, rfl⟩
    have hp' := List.mem_filter.mp hp
    have hmem : p ∈ allReads plp := hp'.1
    unfold allReads at hmem
    rcases List.mem_flatten.mp hmem with ⟨s, hs, hps⟩
    have := hb s hs p hps
    unfold u32 MINUS_CONST
    omega

/-- The `for (t = 0; ...) if (types[t] == 0) break;` search, as `findIdx`,
lands on a zero entry whenever one exists. -/
theorem findIdx_zero_get (l : List Int) (h : (0 : Int) ∈ l) :
    l[l.findIdx (fun x => x == 0)]? = some 0 := by
  induction l with
  | nil => cases h
  | cons a t ih =>
    by_cases ha : a = 0
    · subst ha
      simp [List.findIdx_cons]
    · have ht : (0 : Int) ∈ t := by
        rcases List.mem_cons.mp h with h0 | h0
        · exact absurd h0.symm ha
        · exact h0
      have : (a == (0:Int)) = false := by simp [ha]
      simp [List.findIdx_cons, this, ih ht]

/-- The filtered type list built from any sorted, bounded `aux` array that
contains the `MINUS_CONST` zero entry is strictly increasing, contains the
size 0 exactly once, its `findIdx`-of-zero indexes that entry, and it is no
longer than the distinct-value count. -/
theorem ftTypes_invariant (bca : BcfCallaux) (l : List Nat) (n_tot : Nat)
    (hs : List.Sorted (· ≤ ·) l) (hbnd : ∀ v ∈ l, v < 2 ^ 29)
    (hmc : MINUS_CONST ∈ l) :
    (ftTypes bca l n_tot).Pairwise (· < ·) ∧
    (ftTypes bca l n_tot).count 0 = 1 ∧
    (ftTypes bca l n_tot)[(ftTypes bca l n_tot).findIdx
      (fun x => x == 0)]? = some 0 ∧
    (ftTypes bca l n_tot).length ≤ l.dedup.length := by
  have hDedupLt : l.dedup.Pairwise (· < ·) :=
    ((List.Pairwise.sublist (List.dedup_sublist l) hs).and
      (List.nodup_dedup l)).imp
      (fun hab => lt_of_le_of_ne hab.1 hab.2)
  unfold ftTypes
  set pcond := fun v : Nat =>
      decide (ftSz v = 0) ||
      (decide ((l.count v : Int) ≥ bca.min_support) &&
       (bca.per_sample_flt ||
        (n_tot != 0 &&
         decide (Rat.divInt (l.count v) n_tot ≥ bca.min_frac)))) with hpc
  set fl := l.dedup.filter pcond with hfl
  have hFlLt : fl.Pairwise (· < ·) := hDedupLt.filter pcond
  have hFlBound : ∀ v ∈ fl, v < 2 ^ 29 := fun v hv =>
    hbnd v (List.mem_dedup.mp (List.mem_filter.mp hv).1)
  have hFlNodup : fl.Nodup := (List.nodup_dedup l).filter pcond
  have hz : ftSz MINUS_CONST = 0 := by decide
  have hMCfl : (MINUS_CONST : Nat) ∈ fl := by
    refine List.mem_filter.mpr ⟨List.mem_dedup.mpr hmc, ?_⟩
    simp [hpc, hz]
  refine ⟨?_, ?_, ?_, ?_⟩
  · exact List.pairwise_map.mpr (hFlLt.imp_of_mem
      (fun ha hb hlt => by
        rw [ftSz_eq _ (hFlBound _ ha), ftSz_eq _ (hFlBound _ hb)]
        omega))
  · show List.count 0 (fl.map ftSz) = 1
    rw [List.count, List.countP_map]
    have : fl.countP ((fun x => x == (0 : Int)) ∘ ftSz)
        = fl.countP (fun v => v == MINUS_CONST) := by
      refine List.countP_congr (fun v hv => ?_)
      have hvb := hFlBound v hv
      have hsz := ftSz_eq v hvb
      constructor
      · intro hx
        have : ftSz v = 0 := by simpa using hx
        have : (v : Int) - 2 ^ 28 = 0 := by rw [hsz] at this; exact this
        have : v = MINUS_CONST := by unfold MINUS_CONST; omega
        simpa using this
      · intro hx
        have : v = MINUS_CONST := by simpa using hx
        subst this
        simpa using hz
    rw [this]
    have := List.count_eq_one_of_mem hFlNodup hMCfl
    rw [List.count] at this
    exact this
  · have h0 : (0 : Int) ∈ fl.map ftSz := List.mem_map.mpr ⟨_, hMCfl, hz⟩
    exact findIdx_zero_get _ h0
  · calc (fl.map ftSz).length = fl.length := List.length_map _ _
    _ ≤ l.dedup.length := List.length_filter_le _ _

/-- C1.  Whenever `bcf_cgp_find_types` returns a candidate type list (every
read's indel being a CIGAR-representable size, `|indel| < 2^28`), that list is
strictly increasing, has at most 64 entries, contains exactly one zero entry,
and the returned reference-type index is the index of that zero entry. -/
theorem bcf_cgp_find_types_invariant (plp : List (List PRead)) (pos : Nat)
    (bca : BcfCallaux) (ref : List Char)
    (hb : ∀ s ∈ plp, ∀ p ∈ s, -(2 ^ 28 : Int) ≤ p.indel ∧ p.indel < 2 ^ 28)
    (tys : List Int) (refT maxRd N : Nat)
    (h : (bcf_cgp_find_types plp pos bca ref).2 = some (tys, refT, maxRd, N)) :
    tys.Pairwise (· < ·) ∧ tys.length ≤ 64 ∧ tys.count 0 = 1 ∧
    tys[refT]? = some 0 := by
  have h2 : ftResult plp pos bca ref = some (tys, refT, maxRd, N) := h
  unfold ftResult at h2
  dsimp only at h2
  set auxSorted := List.insertionSort (· ≤ ·) (ftAuxList plp) with hAS
  have hSorted : List.Sorted (· ≤ ·) auxSorted := List.sorted_insertionSort _ _
  have hPerm : List.Perm auxSorted (ftAuxList plp) :=
    List.perm_insertionSort _ _
  have hBound : ∀ v ∈ auxSorted, v < 2 ^ 29 := fun v hv =>
    ftAuxList_bound plp hb v (hPerm.mem_iff.mp hv)
  have hMC : (MINUS_CONST : Nat) ∈ auxSorted := by
    refine hPerm.mem_iff.mpr ?_
    unfold ftAuxList
    exact List.mem_cons_self _ _
  have hInv := ftTypes_invariant bca auxSorted
    (ftSampleScan bca plp).2.2.2.2 hSorted hBound hMC
  split at h2
  all_goals (
    split at h2
    · exact absurd h2 (by simp)
    split at h2
    · exact absurd h2 (by simp)
    split at h2
    · exact absurd h2 (by simp)
    split at h2
    · exact absurd h2 (by simp)
    rename_i hc1 hc64 hcN hcLen
    simp only [Option.some.injEq, Prod.mk.injEq] at h2
    obtain ⟨hT, hR, hM, hN⟩ := h2
    subst hT
    subst hR
    refine ⟨hInv.1, ?_, hInv.2.1, hInv.2.2.1⟩
    have := hInv.2.2.2
    unfold MAX_TYPES at hc64
    omega)

/-! Concrete pileups used to witness the theorems. -/

/-- A calibration context with permissive thresholds. -/
def exBca : BcfCallaux :=
  { openQ := 30, extQ := 20, tandemQ := 100, min_support := 1, min_frac := 0,
    per_sample_flt := true, indel_win_size := 1, poly_mqual := false,
    indel_bias := 1, del_bias := 0, nqual := 60, max_support := 0,
    max_frac := 0,
    indel_types := [B2B_INDEL_NULL, B2B_INDEL_NULL, B2B_INDEL_NULL,
      B2B_INDEL_NULL],
    maxins := 0, inscns := [] }

/-- One read carrying a 1-base insertion (cigar 2M, query length 2). -/
def exRead : PRead :=
  { pos := 0, cigar := [(0, 2)], seq := [1, 1], qual := [20, 20], qpos := 0,
    indel := 1, is_del := false, unmapped := false, aux := 0 }

/-- A single-sample pileup of the one insertion-carrying read. -/
def exPlp : List (List PRead) := [[exRead]]

/-- Witness for C1 at the concrete pileup (`find_types` returns
`([0, 1], 0, 2, 1)` there). -/
theorem bcf_cgp_find_types_invariant_witness :
    List.Pairwise (· < ·) [(0 : Int), 1] ∧ [(0 : Int), 1].length ≤ 64 ∧
    List.count 0 [(0 : Int), 1] = 1 ∧ [(0 : Int), 1][0]? = some 0 :=
  bcf_cgp_find_types_invariant exPlp 0 exBca ['A', 'A'] (by decide)
    [0, 1] 0 2 1 (by decide)

/-- Witness for C6 at concrete penalties and arguments. -/
theorem est_seqQ_monotone_witness :
    est_seqQ exBca 2 7 0 ≤ est_seqQ exBca 2 3 0 ∧
    est_seqQ exBca 2 3 0 ≤ est_seqQ exBca (-5) 3 0 :=
  ⟨(est_seqQ_monotone exBca (by decide) (by decide) (by decide)).1
      2 3 7 0 (by decide) (by decide),
   (est_seqQ_monotone exBca (by decide) (by decide) (by decide)).2
      2 (-5) 3 0 (by decide) (by decide)⟩

/-! ## Claim C8: the reference-N window guard -/

/-- C8 (amended).  Whenever strictly more than half of the scanned reference
bases are 'N' — the scan starting at `pos`, of length
`min(2*indel_win_size, max_read_len)`, truncated at the end of the
reference — `bcf_cgp_find_types` rejects the site and returns no type list. -/
theorem bcf_cgp_find_types_N_reject (plp : List (List PRead)) (pos : Nat)
    (bca : BcfCallaux) (ref : List Char)
    (h : (ftScanN ref
        (pos + min (2 * bca.indel_win_size) (ftMaxRdLen plp) - pos) pos).1 * 2 >
      (ftScanN ref
        (pos + min (2 * bca.indel_win_size) (ftMaxRdLen plp) - pos) pos).2
        - pos) :
    (bcf_cgp_find_types plp pos bca ref).2 = none := by
  show ftResult plp pos bca ref = none
  unfold ftResult
  dsimp only
  rw [if_pos h]
  simp only [ite_self]

/-- Witness for the amended C8 at a window that is all 'N'. -/
theorem bcf_cgp_find_types_N_reject_witness :
    (bcf_cgp_find_types exPlp 0 exBca ['N', 'N']).2 = none :=
  bcf_cgp_find_types_N_reject exPlp 0 exBca ['N', 'N'] (by decide)

/-- Counterexample to C8 as stated: a scan window in which exactly half the
reference bases are 'N' ("at least half" holds), yet `bcf_cgp_find_types`
still returns a candidate list — the code rejects only on a strict majority
(`nN*2 > (i-pos)`, line 198). -/
theorem bcf_cgp_find_types_half_N_counterexample :
    2 * (ftScanN ['A', 'N']
        (0 + min (2 * exBca.indel_win_size) (ftMaxRdLen exPlp) - 0) 0).1 ≥
      (ftScanN ['A', 'N']
        (0 + min (2 * exBca.indel_win_size) (ftMaxRdLen exPlp) - 0) 0).2 - 0 ∧
    (bcf_cgp_find_types exPlp 0 exBca ['A', 'N']).2 ≠ none := by decide

/-! ## Claim C7: realignment score combination (edlib_glocal,
bcf_cgp_align_score lines 1186-1199 and 1222-1225) -/

/-- The outcome of the external `edlibAlign` call that `edlib_glocal`
consumes: failure (bad status or missing locations) or an edit distance with
the aligned target span.  The alignment primitive itself is the spec's
out-of-scope black box. -/
structure EdlibResult where
  ok : Bool
  editDistance : Int
  startLoc : Int
  endLoc : Int
deriving Repr, DecidableEq

/-- `edlib_glocal` (lines 802-984): any edlib failure returns `INT_MAX`;
otherwise `score = m*(r.editDistance - del_bias*(t_len - l_query))` with
`t_len = *r.endLocations - *r.startLocations + 1` (only the `#if 1` scoring
block is compiled). -/
def edlib_glocal (r : EdlibResult) (l_query : Int) (m del_bias : ℚ) : Int :=
  if r.ok = false then INT_MAX
  else cint (m * ((r.editDistance : ℚ) -
    del_bias * ((r.endLoc - r.startLoc + 1 - l_query : Int) : ℚ)))

/-- Two's-complement bitwise OR of two 32-bit `int` values. -/
def int_or (a b : Int) : Int := toInt32 (u32 a ||| u32 b)

/-- The low 8 annotation bits of `bcf_cgp_align_score` (lines 1222-1225):
`l = .5*(100.*sc2/(qend-qbeg) + .499)`,
`l += iscore*(qavg/(m2min+1.0) + qavg/m2)`,
and then `(int)MIN(255, l*bca->indel_bias/10)`. -/
def alignScoreLow (sc qlen iscore : Int) (qavg m2 : ℚ) (m2min : Int)
    (indel_bias : ℚ) : Int :=
  let l1 : Int := cint (Rat.divInt 1 2 *
    (qdiv ((100 : ℚ) * (sc : ℚ)) (qlen : ℚ) + Rat.divInt 499 1000))
  let l2 : Int := cint ((l1 : ℚ) + (iscore : ℚ) *
    (qdiv qavg ((m2min : ℚ) + 1) + qdiv qavg m2))
  cint (min 255 (qdiv ((l2 : ℚ) * indel_bias) 10))

/-- The score-selection tail of `bcf_cgp_align_score` (lines 1186-1199 and
1222-1225): if both per-consensus scores are negative the packed score is
the `0xffffff` sentinel; otherwise a negative score is replaced by the other
one, the better (lower) of two non-negative scores survives, and the packed
result is `(sc2<<8) | (int)MIN(255, l*indel_bias/10)` on 32-bit `int`
arithmetic. -/
def bcf_cgp_align_combine (sc1 sc2 qlen iscore : Int) (qavg m2 : ℚ)
    (m2min : Int) (indel_bias : ℚ) : Int :=
  if sc1 < 0 ∧ sc2 < 0 then 0xffffff
  else
    let sc := if sc1 < 0 then sc2
              else if sc2 < 0 then sc1
              else if sc2 > sc1 then sc1 else sc2
    int_or (i32 (sc <<< 8)) (alignScoreLow sc qlen iscore qavg m2 m2min
      indel_bias)

theorem cint_nonneg {q : ℚ} (h : 0 ≤ q) : 0 ≤ cint q := by
  unfold cint
  rw [if_neg (by linarith)]
  exact Int.floor_nonneg.mpr h

theorem cint_le_of_le {q : ℚ} {n : Int} (h0 : 0 ≤ q) (h : q ≤ (n : ℚ)) :
    cint q ≤ n := by
  unfold cint
  rw [if_neg (by linarith)]
  have := Int.floor_le_floor h
  simpa using this

/-- The packed low byte always lies in [0, 255] when the quality and bias
inputs are non-negative and the query segment is non-empty. -/
theorem alignScoreLow_bounds (sc qlen iscore : Int) (qavg m2 : ℚ)
    (m2min : Int) (ib : ℚ)
    (hsc : 0 ≤ sc) (hq : 0 < qlen) (hi : 0 ≤ iscore) (ha : 0 ≤ qavg)
    (hm2 : 0 ≤ m2) (hmm : 0 ≤ m2min) (hib : 0 ≤ ib) :
    0 ≤ alignScoreLow sc qlen iscore qavg m2 m2min ib ∧
    alignScoreLow sc qlen iscore qavg m2 m2min ib ≤ 255 := by
  have hqQ : (0 : ℚ) ≤ (qlen : ℚ) := by exact_mod_cast le_of_lt hq
  have hscQ : (0 : ℚ) ≤ (sc : ℚ) := by exact_mod_cast hsc
  have hiQ : (0 : ℚ) ≤ (iscore : ℚ) := by exact_mod_cast hi
  have hmmQ : (0 : ℚ) ≤ (m2min : ℚ) := by exact_mod_cast hmm
  have h499 : (0 : ℚ) ≤ Rat.divInt 499 1000 := by
    rw [Rat.divInt_eq_div]; norm_num
  have hhalf : (0 : ℚ) ≤ Rat.divInt 1 2 := by
    rw [Rat.divInt_eq_div]; norm_num
  unfold alignScoreLow
  dsimp only
  set L1 : Int := cint (Rat.divInt 1 2 *
    (qdiv ((100 : ℚ) * (sc : ℚ)) (qlen : ℚ) + Rat.divInt 499 1000)) with hL1
  set L2 : Int := cint ((L1 : ℚ) + (iscore : ℚ) *
    (qdiv qavg ((m2min : ℚ) + 1) + qdiv qavg m2)) with hL2
  have hl1 : (0 : Int) ≤ L1 := by
    rw [hL1]
    refine cint_nonneg ?_
    rw [qdiv_eq]
    have : (0 : ℚ) ≤ (100 : ℚ) * (sc : ℚ) / (qlen : ℚ) :=
      div_nonneg (by linarith) hqQ
    have := add_nonneg this h499
    exact mul_nonneg hhalf this
  have hl2 : (0 : Int) ≤ L2 := by
    rw [hL2]
    refine cint_nonneg ?_
    have h2 : (0 : ℚ) ≤ qdiv qavg ((m2min : ℚ) + 1) + qdiv qavg m2 := by
      rw [qdiv_eq, qdiv_eq]
      have a1 : (0 : ℚ) ≤ qavg / ((m2min : ℚ) + 1) :=
        div_nonneg ha (by linarith)
      have a2 : (0 : ℚ) ≤ qavg / m2 := div_nonneg ha hm2
      linarith
    have hm := mul_nonneg hiQ h2
    have hc : (0 : ℚ) ≤ (L1 : ℚ) := by exact_mod_cast hl1
    linarith
  have hl2Q : (0 : ℚ) ≤ (L2 : ℚ) := by exact_mod_cast hl2
  have hmin : (0 : ℚ) ≤ min 255 (qdiv ((L2 : ℚ) * ib) 10) := by
    refine le_min (by norm_num) ?_
    rw [qdiv_eq]
    exact div_nonneg (mul_nonneg hl2Q hib) (by norm_num)
  constructor
  · exact cint_nonneg hmin
  · refine cint_le_of_le hmin ?_
    have : min (255 : ℚ) (qdiv ((L2 : ℚ) * ib) 10) ≤ 255 := min_le_left _ _
    simpa using this

/-- `(sc<<8) | low` on int is exact packing for in-range values. -/
theorem int_or_pack (sc low : Int) (hs : 0 ≤ sc) (hs2 : sc < 2 ^ 23)
    (hl : 0 ≤ low) (hl2 : low ≤ 255) :
    int_or (i32 (sc <<< (8 : Int))) low = sc * 256 + low := by
  have hsl : sc <<< (8 : Int) = sc * 256 := by
    have := Int.shiftLeft_eq_mul_pow sc 8
    norm_num at this
    exact_mod_cast this
  rw [hsl]
  have hi32 : i32 (sc * 256) = sc * 256 := by
    unfold i32 u32 toInt32
    split <;> omega
  rw [hi32]
  unfold int_or u32 toInt32
  have e1 : ((sc * 256 % 4294967296).toNat) = 2 ^ 8 * sc.toNat := by omega
  have e2 : ((low % 4294967296).toNat) = low.toNat := by omega
  rw [e1, e2]
  have e3 : 2 ^ 8 * sc.toNat ||| low.toNat = 2 ^ 8 * sc.toNat + low.toNat :=
    (Nat.mul_add_lt_is_or (i := 8) (b := low.toNat) (by omega) sc.toNat).symm
  rw [e3]
  split <;> omega

/-- C7 (amended).  In the realignment scorer the per-alignment score counts
as usable only when non-negative (an edlib failure yields `INT_MAX`, which is
treated as an ordinary very poor score, not a failure): the lower of two
usable scores is packed, a lone usable score is packed, and only when both
scores are negative is the packed output the 0xffffff sentinel. -/
theorem bcf_cgp_align_combine_spec (sc1 sc2 qlen iscore : Int)
    (qavg m2 : ℚ) (m2min : Int) (ib : ℚ)
    (hq : 0 < qlen) (hi : 0 ≤ iscore) (ha : 0 ≤ qavg) (hm2 : 0 ≤ m2)
    (hmm : 0 ≤ m2min) (hib : 0 ≤ ib) :
    (sc1 < 0 → sc2 < 0 →
      bcf_cgp_align_combine sc1 sc2 qlen iscore qavg m2 m2min ib =
        0xffffff) ∧
    (0 ≤ sc1 → 0 ≤ sc2 → sc1 < 2 ^ 23 → sc2 < 2 ^ 23 →
      bcf_cgp_align_combine sc1 sc2 qlen iscore qavg m2 m2min ib =
        (min sc1 sc2) * 256 +
          alignScoreLow (min sc1 sc2) qlen iscore qavg m2 m2min ib) ∧
    (sc1 < 0 → 0 ≤ sc2 → sc2 < 2 ^ 23 →
      bcf_cgp_align_combine sc1 sc2 qlen iscore qavg m2 m2min ib =
        sc2 * 256 + alignScoreLow sc2 qlen iscore qavg m2 m2min ib) ∧
    (0 ≤ sc1 → sc2 < 0 → sc1 < 2 ^ 23 →
      bcf_cgp_align_combine sc1 sc2 qlen iscore qavg m2 m2min ib =
        sc1 * 256 + alignScoreLow sc1 qlen iscore qavg m2 m2min ib) := by
  refine ⟨?_, ?_, ?_, ?_⟩
  · intro h1 h2
    unfold bcf_cgp_align_combine
    rw [if_pos ⟨h1, h2⟩]
  · intro h1 h2 h3 h4
    unfold bcf_cgp_align_combine
    rw [if_neg (by omega)]
    dsimp only
    have hmin : (if sc1 < 0 then sc2 else if sc2 < 0 then sc1
        else if sc2 > sc1 then sc1 else sc2) = min sc1 sc2 := by
      rw [if_neg (by omega), if_neg (by omega)]
      split <;> omega
    rw [hmin]
    have hb := alignScoreLow_bounds (min sc1 sc2) qlen iscore qavg m2 m2min ib
      (by omega) hq hi ha hm2 hmm hib
    exact int_or_pack _ _ (by omega) (by omega) hb.1 hb.2
  · intro h1 h2 h3
    unfold bcf_cgp_align_combine
    rw [if_neg (by omega)]
    dsimp only
    rw [if_pos h1]
    have hb := alignScoreLow_bounds sc2 qlen iscore qavg m2 m2min ib
      h2 hq hi ha hm2 hmm hib
    exact int_or_pack _ _ h2 h3 hb.1 hb.2
  · intro h1 h2 h3
    unfold bcf_cgp_align_combine
    rw [if_neg (by omega)]
    dsimp only
    rw [if_neg (by omega), if_pos h2]
    have hb := alignScoreLow_bounds sc1 qlen iscore qavg m2 m2min ib
      h1 hq hi ha hm2 hmm hib
    exact int_or_pack _ _ h1 h3 hb.1 hb.2

/-- Witness for the amended C7: two usable concrete scores pack the lower. -/
theorem bcf_cgp_align_combine_spec_witness :
    bcf_cgp_align_combine 7 5 10 0 30 10 10 1 =
      (min (7 : Int) 5) * 256 + alignScoreLow (min (7 : Int) 5) 10 0 30 10 10 1 :=
  (bcf_cgp_align_combine_spec 7 5 10 0 30 10 10 1 (by decide) (by decide)
    (by decide) (by decide) (by decide) (by decide)).2.1
    (by decide) (by decide) (by decide) (by decide)

/-- Counterexample to C7 as stated: when neither edlib alignment succeeds —
`edlib_glocal` reports failure as `INT_MAX` (lines 814-821), which is not
negative — the packed score is not the 0xffffff sentinel: the sentinel branch
only fires on `sc1 < 0 && sc2 < 0` (line 1186), and `INT_MAX<<8` wraps. -/
theorem bcf_cgp_align_combine_both_fail_counterexample :
    edlib_glocal ⟨false, 0, 0, 0⟩ 5 1 0 = INT_MAX ∧
    bcf_cgp_align_combine (edlib_glocal ⟨false, 0, 0, 0⟩ 5 1 0)
      (edlib_glocal ⟨false, 0, 0, 0⟩ 5 1 0) 5 0 30 10 10 1 ≠ 0xffffff := by
  decide

/-! ## Per-Sample Consensus Builder: bcf_cgp_consensus (lines 311-779)

The four frequency tables are `cons_base`/`ref_base` (6 counters per window
position: A,C,G,T,N,gap) and `cons_ins`/`ref_ins` (per-position alternative
insertion strings with frequencies, capped at `NI = 100`).  `double`
arithmetic (the depth-borrow fraction and the consensus cutoffs) is modelled
exactly over `ℚ`; the decimal constants are the rationals the source writes. -/

/-- `#define NI 100` -/
def NI : Nat := 100

/-- One alternative insertion sequence with its frequency (`str_freq` slot). -/
structure SFEnt where
  str : List Nat
  freq : Int
deriving Repr, DecidableEq

/-- Update the `i`-th element of a list in place. -/
def updAt : List α → Nat → (α → α) → List α
  | [], _, _ => []
  | a :: t, 0, f => f a :: t
  | a :: t, i+1, f => a :: updAt t i f

/-- `bcf_cgp_append_cons` (lines 255-275): add `freq` to the slot holding
`str` (first matching length+content), appending a new slot unless all `NI`
are taken (the insertion is then silently discarded). -/
def bcf_cgp_append_cons (sf : List SFEnt) (str : List Nat) (freq : Int) :
    List SFEnt :=
  match sf.findIdx? (fun e => e.str == str) with
  | some j => updAt sf j (fun e => { e with freq := e.freq + freq })
  | none => if sf.length ≥ NI then sf else sf ++ [⟨str, freq⟩]

/-- The four accumulation tables, each with `right-left` rows. -/
structure ConsAcc where
  cons_base : List (List Int)
  cons_ins : List (List SFEnt)
  ref_base : List (List Int)
  ref_ins : List (List SFEnt)
deriving Repr, DecidableEq

/-- Increment counter `j` of row `i` of a base table. -/
def bumpBase (tbl : List (List Int)) (i j : Nat) : List (List Int) :=
  updAt tbl i (fun row => updAt row j (· + 1))

/-- The M/=/X inner loop (lines 376-392): walk `len` reference/query steps,
counting the read base into `cons_base` (type match) or `ref_base` (other
types, skipping the queried column `pos+1`).  On `x >= right` the loop
breaks, leaving `x`/`y` where they stand, exactly as the source does. -/
def cgMatchRun (indelEq : Bool) (left right pos : Int) (seq : List Nat) :
    Nat → Int → Nat → ConsAcc → Int × Nat × ConsAcc
  | 0, x, y, acc => (x, y, acc)
  | len+1, x, y, acc =>
    if x < left then cgMatchRun indelEq left right pos seq len (x+1) (y+1) acc
    else if x ≥ right then (x, y, acc)
    else
      let b := seq_nt16_int (seq.getD y 0)
      let acc' :=
        if indelEq then
          { acc with cons_base := bumpBase acc.cons_base (x - left).toNat b }
        else if x ≠ pos + 1 then
          { acc with ref_base := bumpBase acc.ref_base (x - left).toNat b }
        else acc
      cgMatchRun indelEq left right pos seq len (x+1) (y+1) acc'

/-- The D inner loop (lines 441-460): walk `len` deleted reference bases,
counting a gap into `cons_base` for the candidate type (or a left-anchored
deletion of the same size), into `ref_base` once clear of the queried
column, and arming `skip_to` for foreign deletions spanning the column.
`fullLen` is the operation's total length (the source's loop-invariant
`len`). -/
def cgDelRun (consHit : Bool) (left right pos : Int) (fullLen : Int) :
    Nat → Int → Int → ConsAcc → Int × ConsAcc
  | 0, x, _, acc => (x, acc)
  | r+1, x, skipTo, acc =>
    if x < left then cgDelRun consHit left right pos fullLen r (x+1) skipTo acc
    else if x ≥ right then (x, acc)
    else
      if consHit then
        cgDelRun consHit left right pos fullLen r (x+1) skipTo
          { acc with cons_base := bumpBase acc.cons_base (x - left).toNat 5 }
      else if x + fullLen ≤ pos + 1 ∨ (skipTo ≠ 0 ∧ x > skipTo) then
        cgDelRun consHit left right pos fullLen r (x+1) skipTo
          { acc with ref_base := bumpBase acc.ref_base (x - left).toNat 5 }
      else if x ≤ pos ∧ x + fullLen > pos + 1 then
        cgDelRun consHit left right pos fullLen r (x+1)
          (if x > skipTo then x + fullLen else skipTo) acc
      else
        cgDelRun consHit left right pos fullLen r (x+1) skipTo acc

/-- One cigar operation of the accumulation pass (lines 365-463).  State is
`(x, y, local_band, local_band_max, acc)`. -/
def cgOp (p : PRead) (type : Int) (left right pos : Int)
    (st : Int × Nat × Int × Int × ConsAcc) (op : Nat × Nat) :
    Int × Nat × Int × Int × ConsAcc :=
  match st with
  | (x, y, lband, lbmax, acc) =>
    if op.1 = BAM_CSOFT_CLIP then (x, y + op.2, lband, lbmax, acc)
    else if op.1 = BAM_CMATCH ∨ op.1 = BAM_CEQUAL ∨ op.1 = BAM_CDIFF then
      let r := cgMatchRun (p.indel == type) left right pos p.seq op.2 x y acc
      (r.1, r.2.1, lband, lbmax, r.2.2)
    else if op.1 = BAM_CINS then
      let lband' := if x ≥ left ∧ x < right then lband + p.indel else lband
      let lbmax' := if x ≥ left ∧ x < right then max lbmax lband' else lbmax
      if x < left then (x, y + op.2, lband', lbmax', acc)
      else if x ≥ right then (x, y, lband', lbmax', acc)
      else
        let ins := ((List.range op.2).map
          (fun j => seq_nt16_int (p.seq.getD (y + j) 0))).take 1024
        let app := fun row => bcf_cgp_append_cons row ins 1
        let acc' :=
          if p.indel == type then
            { acc with cons_ins := updAt acc.cons_ins (x - left).toNat app }
          else if x ≠ pos + 1 then
            { acc with ref_ins := updAt acc.ref_ins (x - left).toNat app }
          else acc
        (x, y + op.2, lband', lbmax', acc')
    else if op.1 = BAM_CDEL then
      let lband' := if x ≥ left ∧ x < right then lband + p.indel else lband
      let lbmax' := if x ≥ left ∧ x < right then max lbmax (-lband') else lbmax
      let consHit := (p.indel == type && !p.is_del) ||
        (p.indel == 0 && p.is_del && (op.2 : Int) == -type)
      let r := cgDelRun consHit left right pos (op.2 : Int) op.2 x 0 acc
      (r.1, y, lband', lbmax', r.2)
    else (x, y, lband, lbmax, acc)

/-- The per-read accumulation (lines 356-468): walk the cigar from the
read's mapping position, then fold the read's band deviation into `band`. -/
def cgRead (type : Int) (left right pos : Int) (st : Int × ConsAcc)
    (p : PRead) : Int × ConsAcc :=
  let r := p.cigar.foldl (cgOp p type left right pos) (p.pos, 0, 0, 0, st.2)
  (max st.1 r.2.2.2.1, r.2.2.2.2)

/-- Phase 1: accumulate every read of the sample (lines 353-469), returning
the four tables and the updated band. -/
def cgAccumulate (reads : List PRead) (type : Int) (left right pos : Int)
    (band0 : Int) (rl : Nat) : Int × ConsAcc :=
  reads.foldl (cgRead type left right pos)
    (band0, ⟨List.replicate rl [0,0,0,0,0,0], List.replicate rl [],
      List.replicate rl [0,0,0,0,0,0], List.replicate rl []⟩)

/-- Sum of the six base counters of a row. -/
def rowBaseTot (row : List Int) : Int := row.foldl (· + ·) 0

/-- Sum of the frequencies of all insertion slots of a row. -/
def rowInsTot (row : List SFEnt) : Int := (row.map (·.freq)).foldl (· + ·) 0

/-- Phase 2, one window position (lines 477-536): compute the depth-borrow
fraction `rfract = max((r - t*2)*.75/(r+1), 1.01/(r+1e-10))` and, outside the
indel-overlap region, blend `rfract` of the other-type counts into the
candidate-type counts (`int += double` truncates toward zero). -/
def cgBlendRow (pos left biggest_del : Int) (i : Nat)
    (cb : List Int) (ci : List SFEnt) (rb : List Int) (ri : List SFEnt) :
    List Int × List SFEnt :=
  let t := rowBaseTot cb + rowInsTot ci
  let r := rowBaseTot rb + rowInsTot ri
  let rf0 : ℚ := qdiv (((r - t * 2 : Int) : ℚ) * Rat.divInt 3 4) ((r : ℚ) + 1)
  let thr : ℚ := qdiv (Rat.divInt 101 100) ((r : ℚ) + Rat.divInt 1 10000000000)
  let rfract := if rf0 < thr then thr else rf0
  if (i : Int) + left ≥ pos + 1 ∧ (i : Int) + left < pos + 1 - biggest_del then
    (cb, ci)
  else
    let cb' := (List.range 6).map
      (fun j => cint ((cb.getD j 0 : ℚ) + rfract * (rb.getD j 0 : ℚ)))
    let ci' := ri.foldl
      (fun row e => bcf_cgp_append_cons row e.str (cint (rfract * (e.freq : ℚ))))
      ci
    (cb', ci')

/-- Phase 2 over the whole window. -/
def cgBlend (pos left biggest_del : Int) (acc : ConsAcc) : ConsAcc :=
  let n := acc.cons_base.length
  let rows := (List.range n).map (fun i =>
    cgBlendRow pos left biggest_del i
      (acc.cons_base.getD i []) (acc.cons_ins.getD i [])
      (acc.ref_base.getD i []) (acc.ref_ins.getD i []))
  { acc with cons_base := rows.map (·.1), cons_ins := rows.map (·.2) }

/-- The str lengths of a row's slots. -/
def rowLens (row : List SFEnt) : List Nat := row.map (fun e => e.str.length)

/-- The longest alternative insertion recorded at one window position
(the per-position `ins` of lines 546-552). -/
def rowMaxLen (row : List SFEnt) : Nat := (rowLens row).foldl max 0

/-- Phase 3 (lines 541-554): the allocated worst-case consensus length —
`right-left` plus, at every window position, the longest alternative
insertion recorded there. -/
def consensusMaxLen (rl : Nat) (cons_ins : List (List SFEnt)) : Nat :=
  rl + (cons_ins.map rowMaxLen).sum

/-- The majority call over five per-offset counters (lines 604-613): the
first strict maximum wins; it must exceed 60% of the total to be kept, else
the offset becomes `N` (4). -/
def cgInsMaj (c : List Int) : Int :=
  let tot := rowBaseTot c
  let m0 : Int × Nat := (0, 0)
  let m1 := if m0.1 < c.getD 0 0 then (c.getD 0 0, 0) else m0
  let m2 := if m1.1 < c.getD 1 0 then (c.getD 1 0, 1) else m1
  let m3 := if m2.1 < c.getD 2 0 then (c.getD 2 0, 2) else m2
  let m4 := if m3.1 < c.getD 3 0 then (c.getD 3 0, 3) else m3
  let m5 := if m4.1 < c.getD 4 0 then (c.getD 4 0, 4) else m4
  if (m5.1 : ℚ) > Rat.divInt 3 5 * (tot : ℚ) then (m5.2 : Int) else 4

/-- Phase 4, one slot (lines 569-615): merge every later same-length,
non-zero-frequency slot into slot `j`, zero their frequencies, and replace
slot `j`'s string by the per-offset majority consensus. -/
def cgMergeSlot (row : List SFEnt) (j : Nat) : List SFEnt :=
  let e := row.getD j ⟨[], 0⟩
  if e.freq = 0 then row
  else
    let parts := e :: ((row.drop (j+1)).filter
      (fun k => k.str.length == e.str.length && !(k.freq == 0)))
    let totToAdd : Int := (parts.map (·.freq)).foldl (· + ·) 0
    let newStr := (List.range e.str.length).map (fun l =>
      cgInsMaj ((List.range 5).map (fun b =>
        (parts.map (fun k => if k.str.getD l 5 == (b : Nat) then k.freq
          else 0)).foldl (· + ·) 0)))
    let row' := updAt row j (fun _ => ⟨newStr.map (·.toNat), totToAdd⟩)
    (List.range row'.length).map (fun k =>
      if k ≤ j then row'.getD k ⟨[], 0⟩
      else
        let ek := row'.getD k ⟨[], 0⟩
        if ek.str.length == e.str.length && !(ek.freq == 0) then
          { ek with freq := 0 }
        else ek)

/-- Phase 4 over one row: slots are processed in ascending order. -/
def cgMergeRow (row : List SFEnt) : List SFEnt :=
  (List.range row.length).foldl cgMergeSlot row

/-- Phase 4 over the whole window. -/
def cgMerge (acc : ConsAcc) : ConsAcc :=
  { acc with cons_ins := acc.cons_ins.map cgMergeRow }

/-- The `base6[256]` table of `bcf_cgp_consensus` (lines 318-329): ASCII
A,C,G,T/U (either case) to 0-3, `*` to 5, everything else to 4. -/
def base6 (c : Char) : Nat :=
  if c = 'A' ∨ c = 'a' then 0
  else if c = 'C' ∨ c = 'c' then 1
  else if c = 'G' ∨ c = 'g' then 2
  else if c = 'T' ∨ c = 't' ∨ c = 'U' ∨ c = 'u' then 3
  else if c = '*' then 5
  else 4

/-- State threaded through the consensus walk (lines 632-759): the emitted
sequence (its length is the source's `k`), the left/right shift counters,
the consensus column of the queried position, and the 1024-entry
heterozygous-call memories shared between the two passes. -/
structure WalkSt where
  out : List Nat
  ls : Int
  rs : Int
  cpos : Int
  heti : Nat → Int
  hetd : Nat → Int

/-- Top-2 scan of the six base counters (lines 647-657):
returns (max_v, max_j, max_v2, max_j2, tot). -/
def cgTop2 (row : List Int) : Int × Nat × Int × Nat × Int :=
  (List.range 6).foldl
    (fun st j =>
      let c := row.getD j 0
      if st.1 < c then (c, j, st.1, st.2.1, st.2.2.2.2 + c)
      else if st.2.2.1 < c then (st.1, st.2.1, c, j, st.2.2.2.2 + c)
      else (st.1, st.2.1, st.2.2.1, st.2.2.2.1, st.2.2.2.2 + c))
    ((0 : Int), (4 : Nat), (0 : Int), (4 : Nat), (0 : Int))

/-- Insertion-candidate scan (lines 660-672): first strict maximum among the
non-merged (non-zero-frequency) slots; returns (max_v_ins, max_j_ins,
tot_ins). -/
def cgInsScan (row : List SFEnt) : Int × Nat × Int :=
  (List.range row.length).foldl
    (fun st j =>
      let e := row.getD j ⟨[], 0⟩
      if e.freq = 0 then st
      else if st.1 < e.freq then (e.freq, j, st.2.2 + e.freq)
      else (st.1, st.2.1, st.2.2 + e.freq))
    ((0 : Int), (0 : Nat), (0 : Int))

/-- Emit the winning insertion's bases one by one, updating the shift
counters only on the first pass (lines 697-705). -/
def cgEmitIns (cnum : Nat) (pos left : Int) :
    List Nat → List Nat → Int → Int → List Nat × Int × Int
  | [], out, ls, rs => (out, ls, rs)
  | c :: rest, out, ls, rs =>
    if cnum = 0 then
      if (out.length : Int) < pos - left + ls then
        cgEmitIns cnum pos left rest (out ++ [c]) (ls + 1) rs
      else
        cgEmitIns cnum pos left rest (out ++ [c]) ls (rs + 1)
    else
      cgEmitIns cnum pos left rest (out ++ [c]) ls rs

/-- The `cpos_pos` capture (lines 644-645). -/
def cgStepCpos (pos left : Int) (i : Nat) (st : WalkSt) : WalkSt :=
  if (i : Int) ≥ pos - left + 1 ∧ st.cpos = -1 then
    { st with cpos := (st.out.length : Int) }
  else st

/-- The insertion part of a walk step (lines 659-710): decide between a
forced, homozygous or heterozygous insertion, record/consult the `heti`
memory, and emit either the winning insertion's bases or `N` placeholders. -/
def cgStepIns (cnum : Nat) (pos left type min_support : Int) (i : Nat)
    (rowIns : List SFEnt) (tot_sum : Int) (st : WalkSt) : WalkSt :=
  let is3 := cgInsScan rowIns
  let max_v_ins := is3.1
  let max_j_ins := is3.2.1
  let tot_ins := is3.2.2
  let always_ins := ((i : Int) = pos - left + 1 ∧ type > 0) ∨
    (max_v_ins : ℚ) > Rat.divInt 4 5 * (tot_sum : ℚ)
  let hetCand := ¬always_ins ∧ max_v_ins ≥ min_support
  let het_ins :=
    if hetCand then
      if cnum = 0 then
        decide ((max_v_ins : ℚ) > Rat.divInt 2 5 * (tot_sum : ℚ))
      else
        if i < 1024 then st.heti i == -1 else false
    else false
  let st :=
    if hetCand ∧ cnum = 0 ∧ i < 1024 then
      { st with heti := fun n => if n = i then
          (if het_ins then 1
           else if (max_v_ins : ℚ) > Rat.divInt 3 10 * (tot_sum : ℚ)
           then -1 else 0)
        else st.heti n }
    else st
  let ent := rowIns.getD max_j_ins ⟨[], 0⟩
  if always_ins ∨ het_ins then
    if (max_v_ins : ℚ) > Rat.divInt 3 5 * (tot_ins : ℚ) then
      let r := cgEmitIns cnum pos left ent.str st.out st.ls st.rs
      { st with out := r.1, ls := r.2.1, rs := r.2.2 }
    else
      { st with out := st.out ++ List.replicate ent.str.length 4 }
  else st

/-- The tail of the deletion/base part (lines 737-755): a called deletion
only moves the shift counters; otherwise a base, an `N`, or the reference
fallback is emitted. -/
def cgStepDelEmit (doDel : Bool) (mvj : Int × Nat) (tot : Int)
    (pos left : Int) (ref : List Char) (ref_len : Int) (st : WalkSt) :
    WalkSt :=
  if doDel then
    if (st.out.length : Int) < pos - left + st.ls then
      { st with ls := st.ls - 1 }
    else
      { st with rs := st.rs + 1 }
  else
    if (mvj.1 : ℚ) > Rat.divInt 2 5 * (tot : ℚ) then
      { st with out := st.out ++ [mvj.2] }
    else if mvj.1 > 0 then
      { st with out := st.out ++ [4] }
    else
      { st with out := st.out ++
          [if left + (st.out.length : Int) < ref_len then
            base6 (ref.getD (left + (st.out.length : Int)).toNat
              (Char.ofNat 0))
           else 4] }

/-- The deletion/base part of a walk step (lines 712-755): decide between a
structural or majority deletion, the `hetd` memory, and otherwise call a
base, an `N`, or fall back to the reference. -/
def cgStepDel (cnum : Nat) (pos left type biggest_del min_support : Int)
    (ref : List Char) (ref_len : Int) (i : Nat) (rowBase : List Int)
    (t2 : Int × Nat × Int × Nat × Int) (st : WalkSt) : WalkSt :=
  let max_v := t2.1
  let max_j := t2.2.1
  let max_v2 := t2.2.2.1
  let max_j2 := t2.2.2.2.1
  let tot := t2.2.2.2.2
  let c5 := rowBase.getD 5 0
  let always_del := (type < 0 ∧ (i : Int) > pos - left ∧
      (i : Int) ≤ pos - left - type) ∨
    (c5 : ℚ) > Rat.divInt 4 5 * (tot : ℚ)
  let delCand := ¬always_del ∧ c5 ≥ min_support
  let het_del :=
    if delCand then
      if cnum = 0 then
        decide ((c5 : ℚ) ≥ Rat.divInt 2 5 * (tot : ℚ))
      else
        if i < 1024 then st.hetd i == -1 else false
    else false
  let st :=
    if delCand ∧ cnum = 0 ∧ i < 1024 then
      { st with hetd := fun n => if n = i then
          (if (i : Int) > pos - left ∧ (i : Int) ≤ pos - left - biggest_del
           then 0
           else if het_del then 1
           else if (c5 : ℚ) ≥ Rat.divInt 3 10 * (tot : ℚ) then -1 else 0)
        else st.hetd n }
    else st
  let mvj : Int × Nat :=
    if delCand ∧ cnum ≠ 0 ∧ max_j = 5 ∧ het_del = false then
      (max_v2, max_j2)
    else (max_v, max_j)
  cgStepDelEmit (decide always_del || het_del) mvj tot pos left ref ref_len st

/-- One window position of the consensus walk (lines 642-756). -/
def cgWalkStep (cnum : Nat) (pos left type biggest_del : Int)
    (min_support : Int) (ref : List Char) (ref_len : Int)
    (st : WalkSt) (iRow : Nat × List Int × List SFEnt) : WalkSt :=
  match iRow with
  | (i, rowBase, rowIns) =>
    let t2 := cgTop2 rowBase
    cgStepDel cnum pos left type biggest_del min_support ref ref_len i
      rowBase t2
      (cgStepIns cnum pos left type min_support i rowIns t2.2.2.2.2
        (cgStepCpos pos left i st))

/-- One full pass of the consensus walk over the window rows. -/
def cgWalk (cnum : Nat) (pos left type biggest_del : Int)
    (min_support : Int) (ref : List Char) (ref_len : Int)
    (rows : List (Nat × List Int × List SFEnt)) (st : WalkSt) : WalkSt :=
  rows.foldl (cgWalkStep cnum pos left type biggest_del min_support ref
    ref_len) st

/-- The outputs of `bcf_cgp_consensus`: the two consensus sequences (over
the 0-5 base alphabet) with their lengths, the shift counters, the consensus
column of the queried position, and the updated band. -/
structure ConsOut where
  cons0 : List Nat
  cons1 : List Nat
  tcon_len0 : Nat
  tcon_len1 : Nat
  left_shift : Int
  right_shift : Int
  cpos_pos : Int
  band : Int
deriving Repr, DecidableEq

/-- `bcf_cgp_consensus` (lines 311-779) for one sample's reads: accumulate
the frequency tables over the window `[left, right)`, blend in out-group
depth, merge equal-length insertion alternatives, and walk the tables twice
to call the primary (`cons[0]`) and secondary (`cons[1]`) consensus.
Allocation failure is not modelled. -/
def bcf_cgp_consensus (reads : List PRead) (pos : Int) (bca : BcfCallaux)
    (ref : List Char) (ref_len : Int) (left right : Int)
    (type biggest_del : Int) (band0 : Int) : ConsOut :=
  let rl := (right - left).toNat
  let acc0 := cgAccumulate reads type left right pos band0 rl
  let band := acc0.1
  let acc := cgMerge (cgBlend pos left biggest_del acc0.2)
  let rows := (List.range rl).map (fun i =>
    (i, acc.cons_base.getD i [], acc.cons_ins.getD i []))
  let st0 : WalkSt :=
    ⟨[], 0, 0, -1, fun _ => 0, fun _ => 0⟩
  let st1 := cgWalk 0 pos left type biggest_del bca.min_support ref ref_len
    rows st0
  let st2 := cgWalk 1 pos left type biggest_del bca.min_support ref ref_len
    rows { st1 with out := [] }
  ⟨st1.out, st2.out, st1.out.length, st2.out.length,
    st2.ls, st2.rs, st2.cpos, band⟩

/-! ## Claim C9: consensus length bounds -/

theorem foldl_max_init_le (l : List Nat) (a : Nat) : a ≤ l.foldl max a := by
  induction l generalizing a with
  | nil => simp
  | cons h t ih => exact le_trans (le_max_left a h) (ih (max a h))

theorem le_foldl_max (l : List Nat) (x : Nat) (hx : x ∈ l) (a : Nat) :
    x ≤ l.foldl max a := by
  induction l generalizing a with
  | nil => cases hx
  | cons h t ih =>
    rcases List.mem_cons.mp hx with rfl | hxt
    · exact le_trans (le_max_right a x) (foldl_max_init_le t (max a x))
    · exact ih hxt (max a h)

theorem getD_str_le_rowMaxLen (row : List SFEnt) (j : Nat) :
    (row.getD j ⟨[], 0⟩).str.length ≤ rowMaxLen row := by
  by_cases hj : j < row.length
  · have hmem : row.getD j ⟨[], 0⟩ ∈ row := by
      rw [List.getD_eq_getElem _ _ hj]
      exact List.getElem_mem _
    have : (row.getD j ⟨[], 0⟩).str.length ∈ rowLens row :=
      List.mem_map.mpr ⟨_, hmem, rfl⟩
    exact le_foldl_max _ _ this 0
  · rw [List.getD_eq_default _ _ (by omega)]
    exact Nat.zero_le _

theorem cgEmitIns_len (cnum : Nat) (pos left : Int) (cs : List Nat) :
    ∀ (out : List Nat) (ls rs : Int),
    (cgEmitIns cnum pos left cs out ls rs).1.length = out.length + cs.length := by
  induction cs with
  | nil => intro out ls rs; simp [cgEmitIns]
  | cons c rest ih =>
    intro out ls rs
    unfold cgEmitIns
    split
    · split
      · rw [ih]; simp; omega
      · rw [ih]; simp; omega
    · rw [ih]; simp; omega

theorem cgStepCpos_out (pos left : Int) (i : Nat) (st : WalkSt) :
    (cgStepCpos pos left i st).out = st.out := by
  unfold cgStepCpos
  split <;> rfl

theorem cgStepIns_len (cnum : Nat) (pos left type ms : Int) (i : Nat)
    (rowIns : List SFEnt) (tot_sum : Int) (st : WalkSt) :
    (cgStepIns cnum pos left type ms i rowIns tot_sum st).out.length ≤
      st.out.length + rowMaxLen rowIns := by
  unfold cgStepIns
  dsimp only
  have hent := getD_str_le_rowMaxLen rowIns (cgInsScan rowIns).2.1
  split_ifs <;>
    simp_all [cgEmitIns_len, List.length_append, List.length_replicate] <;>
    omega

theorem out_hetd_update (st : WalkSt) (c : Prop) [Decidable c]
    (f : Nat → Int) :
    (if c then { st with hetd := f } else st).out = st.out := by
  split <;> rfl

theorem cgStepDelEmit_len (doDel : Bool) (mvj : Int × Nat) (tot : Int)
    (pos left : Int) (ref : List Char) (ref_len : Int) (st : WalkSt) :
    (cgStepDelEmit doDel mvj tot pos left ref ref_len st).out.length ≤
      st.out.length + 1 := by
  unfold cgStepDelEmit
  split_ifs <;> simp

theorem cgStepDel_len (cnum : Nat) (pos left type biggest_del ms : Int)
    (ref : List Char) (ref_len : Int) (i : Nat) (rowBase : List Int)
    (t2 : Int × Nat × Int × Nat × Int) (st : WalkSt) :
    (cgStepDel cnum pos left type biggest_del ms ref ref_len i rowBase t2
      st).out.length ≤ st.out.length + 1 := by
  refine le_trans ?_ (le_refl (st.out.length + 1))
  unfold cgStepDel
  dsimp only
  refine le_trans (cgStepDelEmit_len _ _ _ _ _ _ _ _) ?_
  rw [out_hetd_update]

theorem cgWalkStep_len (cnum : Nat) (pos left type biggest_del ms : Int)
    (ref : List Char) (ref_len : Int) (st : WalkSt)
    (iRow : Nat × List Int × List SFEnt) :
    (cgWalkStep cnum pos left type biggest_del ms ref ref_len st
      iRow).out.length ≤ st.out.length + rowMaxLen iRow.2.2 + 1 := by
  obtain ⟨i, rowBase, rowIns⟩ := iRow
  unfold cgWalkStep
  dsimp only
  refine le_trans (cgStepDel_len _ _ _ _ _ _ _ _ _ _ _ _) ?_
  have h2 := cgStepIns_len cnum pos left type ms i rowIns
    (cgTop2 rowBase).2.2.2.2 (cgStepCpos pos left i st)
  rw [cgStepCpos_out] at h2
  omega

theorem cgWalk_len (cnum : Nat) (pos left type biggest_del ms : Int)
    (ref : List Char) (ref_len : Int)
    (rows : List (Nat × List Int × List SFEnt)) :
    ∀ st : WalkSt,
    (cgWalk cnum pos left type biggest_del ms ref ref_len rows
        st).out.length ≤
      st.out.length + (rows.map (fun r => rowMaxLen r.2.2 + 1)).sum := by
  induction rows with
  | nil => intro st; simp [cgWalk]
  | cons r rest ih =>
    intro st
    have h1 := cgWalkStep_len cnum pos left type biggest_del ms ref ref_len
      st r
    have h2 := ih (cgWalkStep cnum pos left type biggest_del ms ref ref_len
      st r)
    unfold cgWalk at h2 ⊢
    rw [List.foldl_cons]
    simp only [List.map_cons, List.sum_cons]
    omega

theorem map_updAt (g : α → β) (d : α) :
    ∀ (l : List α) (i : Nat) (f : α → α),
    (i < l.length → g (f (l.getD i d)) = g (l.getD i d)) →
    (updAt l i f).map g = l.map g := by
  intro l
  induction l with
  | nil => intro i f h; rfl
  | cons a t ih =>
    intro i f h
    cases i with
    | zero =>
      have := h (by simp)
      simp only [updAt, List.map_cons]
      rw [show (a :: t).getD 0 d = a from rfl] at this
      rw [this]
    | succ k =>
      simp only [updAt, List.map_cons]
      rw [ih k f (fun hk => by
        have := h (by simpa using Nat.succ_lt_succ hk)
        simpa [List.getD_cons_succ] using this)]

theorem range_map_getD (f : α → β) (d : α) :
    ∀ l : List α,
    (List.range l.length).map (fun i => f (l.getD i d)) = l.map f := by
  intro l
  induction l with
  | nil => simp
  | cons a t ih =>
    rw [List.length_cons, List.range_succ_eq_map]
    simp only [List.map_cons, List.map_map]
    congr 1

theorem cgMergeSlot_lens (row : List SFEnt) (j : Nat) :
    rowLens (cgMergeSlot row j) = rowLens row := by
  unfold cgMergeSlot
  dsimp only
  split
  · rfl
  rename_i hfreq
  set e := row.getD j ⟨[], 0⟩ with he
  set newStr := (List.range e.str.length).map (fun l =>
    cgInsMaj ((List.range 5).map (fun b =>
      ((e :: ((row.drop (j+1)).filter
        (fun k => k.str.length == e.str.length && !(k.freq == 0)))).map
        (fun k => if k.str.getD l 5 == (b : Nat) then k.freq
          else 0)).foldl (· + ·) 0))) with hns
  set row' := updAt row j (fun _ =>
    ⟨newStr.map (·.toNat),
     ((e :: ((row.drop (j+1)).filter
        (fun k => k.str.length == e.str.length && !(k.freq == 0)))).map
       (·.freq)).foldl (· + ·) 0⟩) with hrow'
  have hlen : rowLens row' = rowLens row := by
    rw [hrow']
    refine map_updAt (fun en => en.str.length) ⟨[], 0⟩ row j _
      (fun _ => ?_)
    show (newStr.map (·.toNat)).length = _
    rw [List.length_map, hns, List.length_map, List.length_range]
  have h1 : rowLens ((List.range row'.length).map (fun k =>
      if k ≤ j then row'.getD k ⟨[], 0⟩
      else
        let ek := row'.getD k ⟨[], 0⟩
        if ek.str.length == e.str.length && !(ek.freq == 0) then
          { ek with freq := 0 }
        else ek)) =
      (List.range row'.length).map (fun k =>
        (row'.getD k ⟨[], 0⟩).str.length) := by
    unfold rowLens
    rw [List.map_map]
    refine List.map_congr_left (fun k hk => ?_)
    simp only [Function.comp]
    split
    · rfl
    · split <;> rfl
  rw [h1, range_map_getD (fun en => en.str.length) ⟨[], 0⟩ row', ← hlen]
  rfl

theorem cgMergeRow_lens (row : List SFEnt) :
    rowLens (cgMergeRow row) = rowLens row := by
  unfold cgMergeRow
  generalize (List.range row.length) = js
  induction js generalizing row with
  | nil => rfl
  | cons j rest ih =>
    rw [List.foldl_cons]
    rw [ih (cgMergeSlot row j), cgMergeSlot_lens]

theorem cgMergeRow_rowMaxLen (row : List SFEnt) :
    rowMaxLen (cgMergeRow row) = rowMaxLen row := by
  unfold rowMaxLen
  rw [cgMergeRow_lens]

theorem sum_range_getD_le (g : α → Nat) (d : α) (hd : g d = 0) :
    ∀ (l : List α) (K : Nat),
    ((List.range K).map (fun i => g (l.getD i d))).sum ≤ (l.map g).sum := by
  intro l
  induction l with
  | nil =>
    intro K
    have : ∀ i, g (([] : List α).getD i d) = 0 := fun i => by
      simp [List.getD, hd]
    calc ((List.range K).map (fun i => g (([] : List α).getD i d))).sum
        = ((List.range K).map (fun _ => 0)).sum := by
          rw [List.map_congr_left (fun i _ => this i)]
      _ = 0 := by simp
      _ ≤ _ := Nat.zero_le _
  | cons a t ih =>
    intro K
    cases K with
    | zero => simp
    | succ k =>
      rw [List.range_succ_eq_map]
      simp only [List.map_cons, List.sum_cons, List.map_map, List.map_cons,
        List.sum_cons, List.getD_cons_zero]
      have h2 : List.map ((fun i => g ((a :: t).getD i d)) ∘ Nat.succ)
          (List.range k) = List.map (fun i => g (t.getD i d))
          (List.range k) :=
        List.map_congr_left (fun i _ => rfl)
      rw [h2]
      have := ih k
      omega

theorem sum_map_add_one (l : List α) (f : α → Nat) :
    (l.map (fun x => f x + 1)).sum = (l.map f).sum + l.length := by
  induction l with
  | nil => rfl
  | cons a t ih => simp [ih]; omega

/-- C9 (amended).  Each of the two consensus sequences has length at most
`(right-left)` plus the SUM over window positions of the largest insertion
recorded at that position — the worst case the source allocates as `max_len`
(lines 541-559); the walk never overruns that buffer.  The bound
`(right-left) + maxInsertionSize` with a single largest-candidate term does
not hold (see the counterexample). -/
theorem bcf_cgp_consensus_len_le (reads : List PRead) (pos : Int)
    (bca : BcfCallaux) (ref : List Char) (ref_len : Int)
    (left right type biggest_del band0 : Int) :
    (bcf_cgp_consensus reads pos bca ref ref_len left right type biggest_del
        band0).tcon_len0 ≤
      consensusMaxLen (right - left).toNat
        (cgBlend pos left biggest_del
          (cgAccumulate reads type left right pos band0
            (right - left).toNat).2).cons_ins ∧
    (bcf_cgp_consensus reads pos bca ref ref_len left right type biggest_del
        band0).tcon_len1 ≤
      consensusMaxLen (right - left).toNat
        (cgBlend pos left biggest_del
          (cgAccumulate reads type left right pos band0
            (right - left).toNat).2).cons_ins := by
  unfold bcf_cgp_consensus
  dsimp only
  set rl := (right - left).toNat with hrl
  set B := cgBlend pos left biggest_del
    (cgAccumulate reads type left right pos band0 rl).2 with hB
  set M := cgMerge B with hM
  set rows := (List.range rl).map (fun i =>
    (i, M.cons_base.getD i [], M.cons_ins.getD i [])) with hrows
  have hsum : (rows.map (fun r => rowMaxLen r.2.2 + 1)).sum ≤
      consensusMaxLen rl B.cons_ins := by
    rw [hrows, List.map_map]
    have hcomp : ((fun r : Nat × List Int × List SFEnt =>
        rowMaxLen r.2.2 + 1) ∘
        (fun i => (i, M.cons_base.getD i [], M.cons_ins.getD i []))) =
        fun i => rowMaxLen (M.cons_ins.getD i []) + 1 := rfl
    rw [hcomp, sum_map_add_one, List.length_range]
    have h4 := sum_range_getD_le rowMaxLen ([] : List SFEnt) rfl
      M.cons_ins rl
    have h5 : (M.cons_ins.map rowMaxLen).sum =
        (B.cons_ins.map rowMaxLen).sum := by
      rw [hM]
      show ((B.cons_ins.map cgMergeRow).map rowMaxLen).sum = _
      rw [List.map_map]
      congr 1
      exact List.map_congr_left (fun r _ => cgMergeRow_rowMaxLen r)
    unfold consensusMaxLen
    omega
  constructor
  · refine le_trans (cgWalk_len _ _ _ _ _ _ _ _ rows _) ?_
    simpa using hsum
  · refine le_trans (cgWalk_len _ _ _ _ _ _ _ _ rows _) ?_
    simpa using hsum

/-- A read with the candidate 1-base insertion after the queried position 1
and an unrelated homozygous 2-base insertion after position 0
(cigar 1M 2I 1M 1I 2M). -/
def rdC9 : PRead :=
  { pos := 0, cigar := [(0,1),(1,2),(0,1),(1,1),(0,2)],
    seq := [1,1,1,1,1,1,1], qual := [20,20,20,20,20,20,20], qpos := 1,
    indel := 1, is_del := false, unmapped := false, aux := 0 }

/-- Counterexample to C9 as stated: for this pileup the discovered candidate
list is {0, +1}, so the largest candidate insertion size is 1; yet over the
window [0,4) the primary consensus for type +1 has length 7, exceeding
`(right-left) + maxInsertionSize = 5` — the consensus also emits the
homozygous 2-base insertion found at another window column (the source
allocates the per-position sum, lines 541-554, precisely because of this). -/
theorem bcf_cgp_consensus_len_counterexample :
    (bcf_cgp_find_types [[rdC9]] 1 exBca ['A', 'A', 'A', 'A']).2 =
      some ([0, 1], 0, 7, 1) ∧
    (bcf_cgp_consensus [rdC9] 1 exBca ['A', 'A', 'A', 'A'] 4 0 4 1 0
      1).tcon_len0 = 7 ∧
    ¬((7 : Nat) ≤ (4 - 0) + 1) := by decide

/-! ## Quality Calibrator: bcf_cgp_compute_indelQ (lines 1242-1398) and the
Orchestrator: bcf_edlib_gap_prep (lines 1415-1779)

The realignment phase of the orchestrator (lines 1465-1762) drives external
collaborators that live outside this translation unit — `bcf_cgp_calc_cons`
(`bam2bcf_indel.c`), `est_indelreg`/`bcf_cgp_l_run` (`bam2bcf.c`),
`tpos2qpos`, `find_STR` (`str_finder.c`) and `edlibAlign` (`edlib`) — so its
numeric products (the read-by-type score matrix, the insertion consensus
buffer, the homopolymer run data and the repeat statistics) enter the model
as an oracle parameter; the claims settled against this model are uniform in
those values.  The histogram fields updated in the `t == 0` statistics pass
(lines 1618-1641) are outside the modelled state. -/

/-- The numeric products of the realignment phase. -/
structure AlignOracle where
  score : Nat → Int
  inscns : Nat → Int
  l_run : Int
  l_run_mask_hit : Bool
  str_len1 : Int
  str_len2 : Int

/-- Two's-complement bitwise AND of two C ints. -/
def iand (a b : Int) : Int := toInt32 (u32 a &&& u32 b)

/-- A C int left shift, wrapping at 32 bits. -/
def ishl (a : Int) (n : Nat) : Int := i32 (a * 2 ^ n)

/-- A C int arithmetic right shift (sign-extending, i.e. flooring). -/
def iasr (a : Int) (n : Nat) : Int := a >>> n

/-- C's in-place ascending insertion sort (lines 1269-1271): each element
moves left past strictly greater predecessors. -/
def insertAsc (x : Int) : List Int → List Int
  | [] => [x]
  | y :: ys => if x < y then x :: y :: ys else y :: insertAsc x ys

/-- Ascending insertion sort of the packed score-and-type values. -/
def insSortAsc (l : List Int) : List Int :=
  l.foldl (fun acc x => insertAsc x acc) []

/-- C's in-place descending insertion sort (lines 1367-1369). -/
def insertDesc (x : Int) : List Int → List Int
  | [] => [x]
  | y :: ys => if x > y then x :: y :: ys else y :: insertDesc x ys

/-- Descending insertion sort of the aggregated per-type qualities. -/
def insSortDesc (l : List Int) : List Int :=
  l.foldl (fun acc x => insertDesc x acc) []

/-- The leftward homopolymer scan (lines 1309-1314): from `l` down to 0,
stop at the first base differing from `baseL`, taking the minimum quality
of the scanned bases. -/
def polyScanL (seq qual : List Nat) (baseL : Nat) : Nat → Int → Int
  | 0, mq =>
    if seq.getD 0 0 ≠ baseL then mq else min mq (qual.getD 0 0 : Int)
  | l+1, mq =>
    if seq.getD (l+1) 0 ≠ baseL then mq
    else polyScanL seq qual baseL l (min mq (qual.getD (l+1) 0 : Int))

/-- The rightward homopolymer scan (lines 1317-1323): from `l` to the end of
the read, fold in each quality and stop after the first base differing from
`base`. -/
def polyScanR (seq qual : List Nat) (base : Nat) : Nat → Nat → Int → Int
  | 0, _, mq => mq
  | fuel+1, l, mq =>
    let mq' := min mq (qual.getD l 0 : Int)
    if seq.getD l 0 ≠ base then mq'
    else polyScanR seq qual base fuel (l+1) mq'

/-- The optional homopolymer-quality skew (lines 1300-1337):
`seqQ += MIN(qavg/20, min_q - qavg/10)`,
`indelQ += MIN(qavg/20, min_q - qavg/5)`, both floored at 0.  A read whose
queried offset sits at the last base makes `bam_seqi(seq, qpos+1)` read past
the sequence; that out-of-range nibble is modelled as 0. -/
def polyAdjust (p : PRead) (qavg : ℚ) (seqQ indelQ : Int) : Int × Int :=
  let l_qseq := p.seq.length
  let qpos := p.qpos
  let mq0 : Int := p.qual.getD qpos 0
  let baseL := p.seq.getD (if qpos + 1 < l_qseq then qpos + 1 else qpos) 0
  let mq1 := polyScanL p.seq p.qual baseL qpos mq0
  let base := p.seq.getD (qpos + 1) 0
  let min_q := polyScanR p.seq p.qual base (l_qseq - (qpos + 1)) (qpos + 1)
    mq1
  let seqQ' := cint ((seqQ : ℚ) +
    min (qdiv qavg 20) ((min_q : ℚ) - qdiv qavg 10))
  let indelQ' := cint ((indelQ : ℚ) +
    min (qdiv qavg 20) ((min_q : ℚ) - qdiv qavg 5))
  (if seqQ' < 0 then 0 else seqQ', if indelQ' < 0 then 0 else indelQ')

/-- The per-read calibration (lines 1260-1358): pack and sort the per-type
scores (`sc[t] = sct[t]<<6 | t`), derive IndelQ as the score gap to the
reference type and SeqQ from `est_seqQ`, optionally apply the homopolymer
skew, damp IndelQ by the length-normalised score (`tmp > 111` kills it,
otherwise linear scaling with `.499` rounding), cap IndelQ at SeqQ, clamp
both to 255, and write the 22-bit annotation.  Returns the annotated read,
the winning type index and the final IndelQ. -/
def calibRead (bca : BcfCallaux) (types : List Int) (n_types : Nat)
    (ref_type : Nat) (l_run : Int) (str_len1 : Int) (qavg : ℚ)
    (score : Nat → Int) (K : Nat) (p : PRead) : PRead × Nat × Int :=
  let sc := insSortAsc ((List.range n_types).map
    (fun t => int_or (ishl (score (K * n_types + t)) 6) (t : Int)))
  let sc0 := sc.getD 0 0
  let bestT := (iand sc0 63).toNat
  let iq1 : Int × Int :=
    if bestT = ref_type then
      (iasr (sc.getD 1 0) 14 - iasr sc0 14,
       est_seqQ bca (types.getD (iand (sc.getD 1 0) 63).toNat 0) l_run
         str_len1)
    else
      let t := sc.findIdx (fun v => iand v 63 == (ref_type : Int))
      (iasr (sc.getD t 0) 14 - iasr sc0 14,
       est_seqQ bca (types.getD bestT 0) l_run str_len1)
  let iq2 : Int × Int :=
    if bca.poly_mqual then
      let a := polyAdjust p qavg iq1.2 iq1.1
      (a.2, a.1)
    else (iq1.1, iq1.2)
  let indelQ0 := iq2.1
  let seqQ0 := iq2.2
  let tmp := iand (iasr sc0 6) 255
  let indelQ1 := if tmp > 111 then 0
    else cint ((1 - Rat.divInt tmp 111) * (indelQ0 : ℚ) + Rat.divInt 499 1000)
  let indelQ2 := if indelQ1 > seqQ0 then seqQ0 else indelQ1
  let indelQ3 := if indelQ2 > 255 then 255 else indelQ2
  let seqQ1 := if seqQ0 > 255 then 255 else seqQ0
  let aux' := int_or (int_or (ishl (iand sc0 63) 16) (ishl seqQ1 8)) indelQ3
  ({ p with aux := aux' }, bestT, indelQ3)

/-- The final annotation remap of one read (lines 1387-1391): look up the
read's winning type among the four chosen `indel_types` (4 = no call) and
rewrite the annotation. -/
def remapRead (types itypes : List Int) (p : PRead) : PRead :=
  let x := types.getD (iand (iasr p.aux 16) 63).toNat 0
  let j := itypes.findIdx (fun v => v == x)
  let aux' := int_or (ishl (j : Int) 16)
    (if j == 4 then 0 else iand p.aux 0xffff)
  { p with aux := aux' }

/-- The calibrator's alt count (lines 1385-1395): the number of reads whose
rewritten annotation carries a non-reference call index
(`(p->aux>>16&0x3f) > 0`). -/
def countNonRef (plp : List (List PRead)) : Int :=
  ((allReads plp).map
    (fun p => if iand (iasr p.aux 16) 63 > 0 then (1 : Int) else 0)).sum

/-- `bcf_cgp_compute_indelQ` (lines 1242-1398): annotate every read, rank
the candidate types by aggregate IndelQ with the reference type forced
first, publish up to four chosen types (unused slots `B2B_INDEL_NULL`) and
their insertion consensus into the CalibrationContext, remap every read's
annotation onto that selection, and return `n_alt`.  `realloc`'s preserved
bytes keep the old contents; fresh bytes are modelled as 0.  Allocation
failure (`return -1`) is not modelled. -/
def bcf_cgp_compute_indelQ (plp : List (List PRead)) (bca : BcfCallaux)
    (inscns : Nat → Int) (l_run : Int) (max_ins : Nat) (ref_type : Nat)
    (types : List Int) (qavg : ℚ) (score : Nat → Int) (str_len1 : Int) :
    Int × List (List PRead) × BcfCallaux :=
  let n_types := types.length
  let p1 := plp.foldl
    (fun (st : Nat × List Int × List (List PRead)) s =>
      let r := s.foldl
        (fun (st2 : Nat × List Int × List PRead) p =>
          let c := calibRead bca types n_types ref_type l_run str_len1 qavg
            score st2.1 p
          (st2.1 + 1, updAt st2.2.1 c.2.1 (· + c.2.2), st2.2.2 ++ [c.1]))
        (st.1, st.2.1, [])
      (r.1, r.2.1, st.2.2 ++ [r.2.2]))
    (0, List.replicate n_types 0, [])
  let plp1 := p1.2.2
  let sumq0 := p1.2.1
  let inscnsRealloc :=
    (bca.inscns ++ List.replicate (4 * max_ins) 0).take (4 * max_ins)
  let sumq1 := insSortDesc ((List.range n_types).map
    (fun t => int_or (ishl (sumq0.getD t 0) 6) (t : Int)))
  let tR := sumq1.findIdx (fun v => iand v 63 == (ref_type : Int))
  let sumq2 := (sumq1.getD tR 0) :: sumq1.eraseIdx tR
  let itypes := (List.range 4).map (fun t =>
    if t < n_types then types.getD (iand (sumq2.getD t 0) 63).toNat 0
    else B2B_INDEL_NULL)
  let inscns2 :=
    if max_ins = 0 then inscnsRealloc
    else (List.range (4 * max_ins)).map (fun idx =>
      if idx / max_ins < min 4 n_types then
        inscns ((iand (sumq2.getD (idx / max_ins) 0) 63).toNat * max_ins
          + idx % max_ins)
      else inscnsRealloc.getD idx 0)
  let bca2 :=
    { bca with maxins := max_ins, inscns := inscns2, indel_types := itypes }
  let plp2 := plp1.map (fun s => s.map (remapRead types itypes))
  (countNonRef plp2, plp2, bca2)

/-- The result of the orchestrator: return code and the (only) mutable
state it touches. -/
structure GPResult where
  ret : Int
  plp : List (List PRead)
  bca : BcfCallaux
deriving DecidableEq

/-- The site-average base quality (lines 1436-1455):
`qavg = (qsum+1)/(qcount+1)` over a 50-base window around each read's
queried offset. -/
def gapPrepQavg (plp : List (List PRead)) : ℚ :=
  let sums := (allReads plp).foldl
    (fun (st : Int × Int) p =>
      let kstart := if p.qpos > 50 then p.qpos - 50 else 0
      let kend := if p.qpos + 50 < p.seq.length then p.qpos + 50
        else p.seq.length
      ((List.range (kend - kstart)).foldl
        (fun a k => a + (p.qual.getD (kstart + k) 0 : Int)) st.1,
       st.2 + ((kend : Int) - (kstart : Int))))
    (0, 0)
  Rat.divInt (sums.1 + 1) (sums.2 + 1)

/-- `bcf_edlib_gap_prep` (lines 1415-1779): exit early when no read has an
indel; compute the site quality average; run Allele Type Discovery and exit
on rejection; run the (oracle-abstracted) realignment phase; adjust `l_run`
by the insertion base-run mask (lines 1765-1766); call the Quality
Calibrator; and return 0 exactly when its `n_alt` is positive. -/
def bcf_edlib_gap_prep (orc : AlignOracle) (plp : List (List PRead))
    (pos : Nat) (bca : BcfCallaux) (ref : List Char) (ref_len : Nat) :
    GPResult :=
  if plp.all (fun s => s.all (fun p => p.indel == 0)) then ⟨-1, plp, bca⟩
  else
    let qavg := gapPrepQavg plp
    let ft := bcf_cgp_find_types plp pos bca ref
    match ft.2 with
    | none => ⟨-1, plp, ft.1⟩
    | some (types, ref_type, _maxRdLen, _N) =>
      let max_ins := (types.getD (types.length - 1) 0).toNat
      let l_run := if orc.l_run_mask_hit then orc.l_run else 1
      let r := bcf_cgp_compute_indelQ plp ft.1 orc.inscns l_run max_ins
        ref_type types qavg orc.score orc.str_len1
      ⟨if 0 < r.1 then 0 else -1, r.2.1, r.2.2⟩

/-! ## Claims C2, C3, C4: return code and frame of the orchestrator -/

/-- A realignment oracle under which the single read of `rdC2` scores best
on the reference type (score 0 for flattened index 0, 100 elsewhere). -/
def orcC3 : AlignOracle :=
  { score := fun i => if i == 0 then 0 else 100, inscns := fun _ => 0,
    l_run := 1, l_run_mask_hit := true, str_len1 := 1, str_len2 := 0 }

/-- A realignment oracle under which the single read of `rdC2` scores best
on the non-reference type (score 100 for flattened index 0, 0 elsewhere). -/
def orcC2 : AlignOracle :=
  { score := fun i => if i == 0 then 100 else 0, inscns := fun _ => 0,
    l_run := 1, l_run_mask_hit := true, str_len1 := 1, str_len2 := 0 }

/-- A single read carrying a one-base insertion (CIGAR 1M1I1M). -/
def rdC2 : PRead :=
  { pos := 0, cigar := [(0, 1), (1, 1), (0, 1)], seq := [1, 1, 1],
    qual := [20, 20, 20], qpos := 1, indel := 1, is_del := false,
    unmapped := false, aux := 0 }

theorem gpRet_aux (x : Int × List (List PRead) × BcfCallaux)
    (hx : x.1 = countNonRef x.2.1) :
    ((if 0 < x.1 then (0 : Int) else -1) = 0 ↔ 0 < countNonRef x.2.1) ∧
    ((if 0 < x.1 then (0 : Int) else -1) = 0 ∨
      (if 0 < x.1 then (0 : Int) else -1) = -1) := by
  refine ⟨?_, ?_⟩
  · rw [hx]; split_ifs with h <;> simp [h]
  · split_ifs <;> simp

/-- C2. For every invocation that reaches the Quality Calibrator (some read
carries a non-zero indel and Allele Type Discovery accepts the site), the
orchestrator returns 0 exactly when the calibrator's `n_alt` — which equals
the number of reads in the returned pileup whose final annotation carries a
non-reference call index (`(aux>>16&0x3f) > 0`) — is positive, and -1
otherwise (lines 1384-1398 and 1771-1779). -/
theorem bcf_edlib_gap_prep_ret_iff_alt (orc : AlignOracle)
    (plp : List (List PRead)) (pos : Nat) (bca : BcfCallaux)
    (ref : List Char) (ref_len : Nat) (types : List Int)
    (ref_type maxRdLen nN : Nat)
    (hnz : plp.all (fun s => s.all (fun p => p.indel == 0)) = false)
    (hft : (bcf_cgp_find_types plp pos bca ref).2
      = some (types, ref_type, maxRdLen, nN)) :
    ((bcf_edlib_gap_prep orc plp pos bca ref ref_len).ret = 0 ↔
      0 < countNonRef (bcf_edlib_gap_prep orc plp pos bca ref ref_len).plp) ∧
    ((bcf_edlib_gap_prep orc plp pos bca ref ref_len).ret = 0 ∨
      (bcf_edlib_gap_prep orc plp pos bca ref ref_len).ret = -1) := by
  have hcond : ¬ (plp.all (fun s => s.all (fun p => p.indel == 0)) = true) := by
    simp [hnz]
  have hval : bcf_edlib_gap_prep orc plp pos bca ref ref_len
      = ⟨if 0 < (bcf_cgp_compute_indelQ plp
            (bcf_cgp_find_types plp pos bca ref).1 orc.inscns
            (if orc.l_run_mask_hit then orc.l_run else 1)
            (types.getD (types.length - 1) 0).toNat ref_type types
            (gapPrepQavg plp) orc.score orc.str_len1).1 then 0 else -1,
          (bcf_cgp_compute_indelQ plp
            (bcf_cgp_find_types plp pos bca ref).1 orc.inscns
            (if orc.l_run_mask_hit then orc.l_run else 1)
            (types.getD (types.length - 1) 0).toNat ref_type types
            (gapPrepQavg plp) orc.score orc.str_len1).2.1,
          (bcf_cgp_compute_indelQ plp
            (bcf_cgp_find_types plp pos bca ref).1 orc.inscns
            (if orc.l_run_mask_hit then orc.l_run else 1)
            (types.getD (types.length - 1) 0).toNat ref_type types
            (gapPrepQavg plp) orc.score orc.str_len1).2.2⟩ := by
    unfold bcf_edlib_gap_prep
    rw [if_neg hcond]
    dsimp only
    rw [hft]
  rw [hval]
  exact gpRet_aux (bcf_cgp_compute_indelQ plp
    (bcf_cgp_find_types plp pos bca ref).1 orc.inscns
    (if orc.l_run_mask_hit then orc.l_run else 1)
    (types.getD (types.length - 1) 0).toNat ref_type types
    (gapPrepQavg plp) orc.score orc.str_len1) rfl

theorem bcf_edlib_gap_prep_ret_iff_alt_witness :
    (bcf_edlib_gap_prep orcC2 [[rdC2]] 0 exBca (['A', 'A']) 2).ret = 0 := by
  have h := bcf_edlib_gap_prep_ret_iff_alt orcC2 [[rdC2]] 0 exBca
    (['A', 'A']) 2 [0, 1] 0 3 1 (by decide) (by decide)
  exact h.1.mpr (by decide)

/-- C3. Amended frame property: on the two early-exit paths — every read's
indel zero (lines 1426-1433), or Allele Type Discovery rejecting the site
(lines 1459-1462 with `n_alt` still -1) — the orchestrator returns -1 and
leaves the pileup (hence every read's 22-bit annotation) and the
CalibrationContext's output fields (chosen indel types, insertion consensus
and its size) unchanged.  The original claim — that EVERY -1 return leaves
them unchanged — fails on the calibrator path with `n_alt = 0`, which
returns -1 after rewriting annotations and publishing indel types. -/
theorem bcf_edlib_gap_prep_early_frame (orc : AlignOracle)
    (plp : List (List PRead)) (pos : Nat) (bca : BcfCallaux)
    (ref : List Char) (ref_len : Nat)
    (h : plp.all (fun s => s.all (fun p => p.indel == 0)) = true ∨
      (bcf_cgp_find_types plp pos bca ref).2 = none) :
    (bcf_edlib_gap_prep orc plp pos bca ref ref_len).ret = -1 ∧
    (bcf_edlib_gap_prep orc plp pos bca ref ref_len).plp = plp ∧
    (bcf_edlib_gap_prep orc plp pos bca ref ref_len).bca.indel_types
      = bca.indel_types ∧
    (bcf_edlib_gap_prep orc plp pos bca ref ref_len).bca.maxins
      = bca.maxins ∧
    (bcf_edlib_gap_prep orc plp pos bca ref ref_len).bca.inscns
      = bca.inscns := by
  by_cases hz : plp.all (fun s => s.all (fun p => p.indel == 0)) = true
  · have hval : bcf_edlib_gap_prep orc plp pos bca ref ref_len
        = ⟨-1, plp, bca⟩ := by
      unfold bcf_edlib_gap_prep
      rw [if_pos hz]
    rw [hval]
    exact ⟨rfl, rfl, rfl, rfl, rfl⟩
  · have hn : (bcf_cgp_find_types plp pos bca ref).2 = none := by
      rcases h with h | h
      · exact absurd h hz
      · exact h
    have hval : bcf_edlib_gap_prep orc plp pos bca ref ref_len
        = ⟨-1, plp, (bcf_cgp_find_types plp pos bca ref).1⟩ := by
      unfold bcf_edlib_gap_prep
      rw [if_neg hz]
      dsimp only
      rw [hn]
    rw [hval]
    exact ⟨rfl, rfl, rfl, rfl, rfl⟩

theorem bcf_edlib_gap_prep_early_frame_witness :
    ((bcf_cgp_find_types [[exRead]] 0 exBca (['N', 'N'])).2 = none) ∧
    (bcf_edlib_gap_prep orcC3 [[exRead]] 0 exBca (['N', 'N']) 2).ret = -1 ∧
    (bcf_edlib_gap_prep orcC3 [[exRead]] 0 exBca (['N', 'N']) 2).plp
      = [[exRead]] :=
  ⟨by decide,
   (bcf_edlib_gap_prep_early_frame orcC3 [[exRead]] 0 exBca (['N', 'N']) 2
     (Or.inr (by decide))).1,
   (bcf_edlib_gap_prep_early_frame orcC3 [[exRead]] 0 exBca (['N', 'N']) 2
     (Or.inr (by decide))).2.1⟩

/-- C3 as stated is refuted: with one insertion-carrying read whose
realignment favours the reference type, the orchestrator returns -1 (no
call, `n_alt = 0`), yet the read's annotation has been rewritten (0 to
7680, i.e. SeqQ 30 packed in) and the context's `indel_types` went from
all-null to `[0, 1, null, null]`. -/
theorem bcf_edlib_gap_prep_ret_neg_mutates_counterexample :
    (bcf_edlib_gap_prep orcC3 [[rdC2]] 0 exBca (['A', 'A']) 2).ret = -1 ∧
    (bcf_edlib_gap_prep orcC3 [[rdC2]] 0 exBca (['A', 'A']) 2).plp
      ≠ [[rdC2]] ∧
    (bcf_edlib_gap_prep orcC3 [[rdC2]] 0 exBca (['A', 'A']) 2).bca.indel_types
      ≠ exBca.indel_types := by
  decide

/-- C4. If every read at the site has indel 0, the orchestrator takes the
first early exit (lines 1425-1433): it returns -1 and returns the pileup
and calibration context exactly as given, so no read annotation is
mutated. -/
theorem bcf_edlib_gap_prep_all_zero_frame (orc : AlignOracle)
    (plp : List (List PRead)) (pos : Nat) (bca : BcfCallaux)
    (ref : List Char) (ref_len : Nat)
    (h : ∀ s ∈ plp, ∀ p ∈ s, p.indel = 0) :
    bcf_edlib_gap_prep orc plp pos bca ref ref_len = ⟨-1, plp, bca⟩ := by
  have hc : plp.all (fun s => s.all (fun p => p.indel == 0)) = true := by
    simp only [List.all_eq_true, beq_iff_eq]
    exact h
  unfold bcf_edlib_gap_prep
  rw [if_pos hc]

theorem bcf_edlib_gap_prep_all_zero_frame_witness :
    bcf_edlib_gap_prep orcC3 [[{ exRead with indel := 0 }]] 0 exBca
      (['A', 'A']) 2
    = ⟨-1, [[{ exRead with indel := 0 }]], exBca⟩ :=
  bcf_edlib_gap_prep_all_zero_frame orcC3 [[{ exRead with indel := 0 }]] 0
    exBca (['A', 'A']) 2 (by decide)
